import Mathlib

/-!
ParameterAcceptor: registry, section-path resolution and the two passes.

A shallow embedding of `source/base/parameter_acceptor.cc` (deal.II).

* `std::string` is a list of characters (`Str`).
* The static `class_list` is passed explicitly (`ClassList`); a slot is
  `some a` for a live registrant and `none` for a null pointer (tombstone).
* Code that can trip an assertion or run into undefined behaviour returns
  `Except Failure _`.
* The `ParameterHandler` is reduced to its subsection stack plus a ghost log of
  the calls it and the registrant callbacks receive.
-/

set_option autoImplicit false

/-- A `std::string`, as the list of its characters. -/
abbrev Str := List Char

/-- Ways in which a call can fail instead of returning. -/
inductive Failure where
  /-- `Assert(..., ExcInternalError())` does not hold. -/
  | ExcInternalError
  /-- `leave_subsection` called with an empty subsection stack. -/
  | ExcAlreadyAtTopLevel
  /-- dereferencing a null `SmartPointer` (a tombstoned slot). -/
  | null_pointer
  /-- an index past the end of a vector. -/
  | out_of_range
  /-- `vector::insert` called with a range whose end precedes its start. -/
  | invalid_range
  deriving DecidableEq, Repr

/-- Equality of results is decidable. -/
instance instDecidableEqExcept {ε α : Type} [DecidableEq ε] [DecidableEq α] :
    DecidableEq (Except ε α) := fun x y =>
  match x, y with
  | Except.ok a, Except.ok b =>
    if h : a = b then isTrue (by rw [h]) else isFalse (fun e => h (Except.ok.inj e))
  | Except.error a, Except.error b =>
    if h : a = b then isTrue (by rw [h]) else isFalse (fun e => h (Except.error.inj e))
  | Except.ok _, Except.error _ => isFalse (fun e => Except.noConfusion e)
  | Except.error _, Except.ok _ => isFalse (fun e => Except.noConfusion e)

namespace Utilities

/-- Erase the blanks at the end of a string
(`while (tmp.length() != 0 && tmp[tmp.length()-1] == ' ') tmp.erase(...)`). -/
def strip_back (s : Str) : Str :=
  (s.reverse.dropWhile (fun c => c == ' ')).reverse

/-- Erase the blanks at the front of a string
(`while (name.length() != 0 && name[0] == ' ') name.erase(0,1)`). -/
def strip_front (s : Str) : Str :=
  s.dropWhile (fun c => c == ' ')

/-- Strip the blanks from an element's front and end. -/
def strip (s : Str) : Str :=
  strip_back (strip_front s)

/-- The chopping loop of `split_string_list`: while `tmp` is not empty, the text
up to the first delimiter (all of `tmp` when there is none) is taken off the
front, stripped of blanks and appended to the result.  Every round removes at
least one character, so `tmp.length` rounds of fuel always suffice. -/
def split_loop (delimiter : Char) : Nat → Str → List Str
  | 0, _ => []
  | fuel + 1, tmp =>
    if tmp = [] then []
    else if delimiter ∈ tmp then
      strip (tmp.takeWhile (fun c => c != delimiter)) ::
        split_loop delimiter fuel ((tmp.dropWhile (fun c => c != delimiter)).drop 1)
    else [strip tmp]

/-- Modelled from the spec: `Utilities::split_string_list (s, delimiter)` of
`deal.II/base/utilities.h`, which `get_section_path` calls and whose body is not
part of `parameter_acceptor.cc`.  The spec (4.2, step 1) has the declared path
split "on the separator character into segments"; its examples fix that a
separator at the very end opens no further segment (`"/X/Y/"` has the segments
`""`, `"X"`, `"Y"`).  As the helper is documented, blanks at the end of the
whole string and around every segment are removed, so the empty string and a
string of blanks have no segment at all. -/
def split_string_list (s : Str) (delimiter : Char) : List Str :=
  let tmp := strip_back s
  split_loop delimiter tmp.length tmp

end Utilities

/-- The data members of a `ParameterAcceptor`, together with the demangled name
of its dynamic type (`boost::core::demangle(typeid(*this).name())`). -/
structure ParameterAcceptor where
  /-- `acceptor_id`: the length of `class_list` when the object was built. -/
  acceptor_id : Nat
  /-- `section_name`: the path handed to the constructor. -/
  section_name : Str
  /-- The demangled name of the object's runtime type. -/
  type_name : Str
  deriving DecidableEq, Repr

/-- The static `class_list`: one slot per registration, `none` once the
registrant has been destroyed. -/
abbrev ClassList := List (Option ParameterAcceptor)

/-- A call received by the `ParameterHandler` or by a registrant.  Callbacks
carry the `acceptor_id` of the object they are invoked on. -/
inductive Call where
  | enter_subsection (name : Str)
  | leave_subsection
  | declare_parameters (id : Nat)
  | declare_parameters_call_back (id : Nat)
  | parse_parameters (id : Nat)
  | parse_parameters_call_back (id : Nat)
  deriving DecidableEq, Repr

/-- Modelled from the spec: the external `ParameterHandler` (section 6), reduced
to its subsection nesting stack.  `log` is a ghost record of every call made
during a pass, each with the stack at the moment of the call. -/
structure ParameterHandler where
  subsection_path : List Str
  log : List (Call × List Str)
  deriving DecidableEq, Repr

namespace ParameterHandler

/-- Append a call to the ghost log, stamped with the current stack. -/
def record (prm : ParameterHandler) (c : Call) : ParameterHandler :=
  { prm with log := prm.log ++ [(c, prm.subsection_path)] }

/-- Modelled from the spec: `enter_subsection(name)` pushes one nesting level. -/
def enter_subsection (prm : ParameterHandler) (name : Str) : ParameterHandler :=
  { subsection_path := prm.subsection_path ++ [name],
    log := prm.log ++ [(Call.enter_subsection name, prm.subsection_path)] }

/-- Modelled from the spec: `leave_subsection()` pops one nesting level and is
an error when there is no level to leave. -/
def leave_subsection (prm : ParameterHandler) : Except Failure ParameterHandler :=
  if prm.subsection_path = [] then Except.error Failure.ExcAlreadyAtTopLevel
  else Except.ok
    { subsection_path := prm.subsection_path.dropLast,
      log := prm.log ++ [(Call.leave_subsection, prm.subsection_path)] }

end ParameterHandler

namespace ParameterAcceptor

/-- The separator `ParameterAcceptor::sep`. -/
def sep : Char := '/'

/-- Constructor: `acceptor_id(class_list.size())`, then `class_list.push_back`. -/
def construct (class_list : ClassList) (name type_name : Str) :
    ParameterAcceptor × ClassList :=
  let self : ParameterAcceptor :=
    { acceptor_id := class_list.length, section_name := name, type_name := type_name }
  (self, class_list ++ [some self])

/-- Destructor: `class_list[acceptor_id] = 0`. -/
def destruct (self : ParameterAcceptor) (class_list : ClassList) : Except Failure ClassList :=
  if self.acceptor_id < class_list.length then
    Except.ok (class_list.set self.acceptor_id none)
  else Except.error Failure.out_of_range

/-- The registry part of `clear()`: `class_list.clear()`. -/
def clear (_class_list : ClassList) : ClassList := []

/-- `get_section_name()`: the declared path, or the type name when it is empty. -/
def get_section_name (self : ParameterAcceptor) : Str :=
  if self.section_name ≠ [] then self.section_name else self.type_name

/-- The test of `get_section_path` on its own split:
`sections.size() > 1 && sections[0] == ""`. -/
def is_absolute (sections : List Str) : Bool :=
  decide (sections.length > 1) && decide (sections.head? = some [])

/-- `sections.insert(sections.begin(), secs.begin()+1, secs.end()-(has_trailing ? 0 : 1))`
after `Assert(secs[0] == "", ExcInternalError())`. -/
def prepend_absolute (name : Str) (sections : List Str) : Except Failure (List Str) :=
  let has_trailing := decide (name.getLast? = some sep)
  let secs := Utilities.split_string_list name sep
  match secs with
  | [] => Except.error Failure.out_of_range
  | s0 :: _ =>
    if s0 ≠ [] then Except.error Failure.ExcInternalError
    else
      let last := secs.length - (if has_trailing then 0 else 1)
      if 1 ≤ last then Except.ok (((secs.take last).drop 1) ++ sections)
      else Except.error Failure.invalid_range

/-- The loop `for (int i=acceptor_id-1; i>=0; --i)` of `get_section_path`; the
argument counts the slots still to be looked at, so `scan_earlier cl s (i+1)`
looks at slot `i` first.  The first live slot whose section name starts with
the separator ends the loop (`break`).  Ids are taken to fit an `int`.  The
section name of a live slot is never empty (a type name is not), so `front()`
is read as the first character. -/
def scan_earlier (class_list : ClassList) (sections : List Str) : Nat → Except Failure (List Str)
  | 0 => Except.ok sections
  | i + 1 =>
    match class_list[i]? with
    | none => Except.error Failure.out_of_range
    | some none => scan_earlier class_list sections i
    | some (some q) =>
      if q.get_section_name.head? = some sep then
        prepend_absolute q.get_section_name sections
      else scan_earlier class_list sections i

/-- `get_section_path()`.  The object is only used through its `acceptor_id`:
the name that is split is that of `class_list[acceptor_id]`. -/
def get_section_path (self : ParameterAcceptor) (class_list : ClassList) :
    Except Failure (List Str) :=
  if self.acceptor_id < class_list.length then
    match class_list[self.acceptor_id]? with
    | some (some p) =>
      let sections := Utilities.split_string_list p.get_section_name sep
      let absolute := is_absolute sections
      let sections := if absolute then sections.drop 1 else sections
      if absolute = false then scan_earlier class_list sections self.acceptor_id
      else Except.ok sections
    | _ => Except.error Failure.null_pointer
  else Except.error Failure.ExcInternalError

/-- The section path as `enter_my_subsection` walks it: one
`prm.enter_subsection(sec)` per segment, in order. -/
def enter_my_subsection (self : ParameterAcceptor) (class_list : ClassList)
    (prm : ParameterHandler) : Except Failure ParameterHandler :=
  match self.get_section_path class_list with
  | Except.error e => Except.error e
  | Except.ok sections => Except.ok (sections.foldl ParameterHandler.enter_subsection prm)

/-- The loop of `leave_my_subsection`: one `prm.leave_subsection()` per segment. -/
def leave_each : List Str → ParameterHandler → Except Failure ParameterHandler
  | [], prm => Except.ok prm
  | _ :: rest, prm =>
    match prm.leave_subsection with
    | Except.error e => Except.error e
    | Except.ok prm1 => leave_each rest prm1

/-- `leave_my_subsection`: the path is computed afresh, then left segment by
segment. -/
def leave_my_subsection (self : ParameterAcceptor) (class_list : ClassList)
    (prm : ParameterHandler) : Except Failure ParameterHandler :=
  match self.get_section_path class_list with
  | Except.error e => Except.error e
  | Except.ok sections => leave_each sections prm

/-- `declare_parameters(prm)`: a no-op in the base class; the call is logged. -/
def declare_parameters (self : ParameterAcceptor) (prm : ParameterHandler) : ParameterHandler :=
  prm.record (Call.declare_parameters self.acceptor_id)

/-- `declare_parameters_call_back()`: a no-op hook; the call is logged. -/
def declare_parameters_call_back (self : ParameterAcceptor) (prm : ParameterHandler) :
    ParameterHandler :=
  prm.record (Call.declare_parameters_call_back self.acceptor_id)

/-- `parse_parameters(prm)`: a no-op in the base class; the call is logged. -/
def parse_parameters (self : ParameterAcceptor) (prm : ParameterHandler) : ParameterHandler :=
  prm.record (Call.parse_parameters self.acceptor_id)

/-- `parse_parameters_call_back()`: a no-op hook; the call is logged. -/
def parse_parameters_call_back (self : ParameterAcceptor) (prm : ParameterHandler) :
    ParameterHandler :=
  prm.record (Call.parse_parameters_call_back self.acceptor_id)

/-- The body of the loop of `declare_all_parameters` for a live slot. -/
def declare_visit (class_list : ClassList) (a : ParameterAcceptor) (prm : ParameterHandler) :
    Except Failure ParameterHandler :=
  match a.enter_my_subsection class_list prm with
  | Except.error e => Except.error e
  | Except.ok prm1 =>
    a.leave_my_subsection class_list
      (a.declare_parameters_call_back (a.declare_parameters prm1))

/-- The body of the loop of `parse_all_parameters` for a live slot. -/
def parse_visit (class_list : ClassList) (a : ParameterAcceptor) (prm : ParameterHandler) :
    Except Failure ParameterHandler :=
  match a.enter_my_subsection class_list prm with
  | Except.error e => Except.error e
  | Except.ok prm1 =>
    a.leave_my_subsection class_list
      (a.parse_parameters_call_back (a.parse_parameters prm1))

/-- The loop `for (i=0; i<class_list.size(); ++i) if (class_list[i] != NULL) ...`
of `declare_all_parameters`, over the slots still to be visited. -/
def declare_slots (class_list : ClassList) :
    List (Option ParameterAcceptor) → ParameterHandler → Except Failure ParameterHandler
  | [], prm => Except.ok prm
  | none :: rest, prm => declare_slots class_list rest prm
  | some a :: rest, prm =>
    match declare_visit class_list a prm with
    | Except.error e => Except.error e
    | Except.ok prm1 => declare_slots class_list rest prm1

/-- The same loop in `parse_all_parameters`. -/
def parse_slots (class_list : ClassList) :
    List (Option ParameterAcceptor) → ParameterHandler → Except Failure ParameterHandler
  | [], prm => Except.ok prm
  | none :: rest, prm => parse_slots class_list rest prm
  | some a :: rest, prm =>
    match parse_visit class_list a prm with
    | Except.error e => Except.error e
    | Except.ok prm1 => parse_slots class_list rest prm1

/-- `declare_all_parameters(prm)`. -/
def declare_all_parameters (class_list : ClassList) (prm : ParameterHandler) :
    Except Failure ParameterHandler :=
  declare_slots class_list class_list prm

/-- `parse_all_parameters(prm)`. -/
def parse_all_parameters (class_list : ClassList) (prm : ParameterHandler) :
    Except Failure ParameterHandler :=
  parse_slots class_list class_list prm

end ParameterAcceptor

/-! ## Vocabulary of the statements -/

namespace ParameterAcceptor

/-- The registrant's own segments: the split of its section name. -/
def own_sections (self : ParameterAcceptor) : List Str :=
  Utilities.split_string_list self.get_section_name sep

/-- The registrant `a` is live in `class_list`: slot `acceptor_id` points at it. -/
def IsLive (class_list : ClassList) (a : ParameterAcceptor) : Prop :=
  class_list[a.acceptor_id]? = some (some a)

instance (class_list : ClassList) (a : ParameterAcceptor) : Decidable (IsLive class_list a) :=
  inferInstanceAs (Decidable (class_list[a.acceptor_id]? = some (some a)))

/-- The registrant is one `get_section_path` treats as relative: the test for a
leading empty segment fails on its own split. -/
def Relative (a : ParameterAcceptor) : Prop :=
  is_absolute a.own_sections = false

instance (a : ParameterAcceptor) : Decidable (Relative a) :=
  inferInstanceAs (Decidable (is_absolute a.own_sections = false))

/-- Slot `j` holds `q`, the nearest live slot below `i` whose declared path
begins with the separator. -/
def NearestAbsolute (class_list : ClassList) (i j : Nat) (q : ParameterAcceptor) : Prop :=
  j < i ∧ class_list[j]? = some (some q) ∧ q.section_name.head? = some sep ∧
    ∀ (k : Nat) (r : ParameterAcceptor), j < k → k < i → class_list[k]? = some (some r) → r.section_name.head? ≠ some sep

/-- No live slot below `i` has a declared path that begins with the separator. -/
def NoAbsoluteBelow (class_list : ClassList) (i : Nat) : Prop :=
  ∀ (k : Nat) (r : ParameterAcceptor), k < i → class_list[k]? = some (some r) → r.section_name.head? ≠ some sep

/-- The type names in the registry are names of C++ types: none begins with the
separator. -/
def TypeNamesPlain (class_list : ClassList) : Prop :=
  ∀ (k : Nat) (r : ParameterAcceptor), class_list[k]? = some (some r) → r.type_name.head? ≠ some sep

/-- A type name as a demangled C++ type name is: not empty, without the
separator, and without a blank at either end. -/
def PlainTypeName (name : Str) : Prop :=
  name ≠ [] ∧ sep ∉ name ∧ name.head? ≠ some ' ' ∧ name.getLast? ≠ some ' '

instance (name : Str) : Decidable (PlainTypeName name) :=
  inferInstanceAs (Decidable
    (name ≠ [] ∧ sep ∉ name ∧ name.head? ≠ some ' ' ∧ name.getLast? ≠ some ' '))

/-- A segment that is not empty and holds neither the separator nor a blank. -/
def PlainSegment (s : Str) : Prop :=
  s ≠ [] ∧ sep ∉ s ∧ ' ' ∉ s

instance (s : Str) : Decidable (PlainSegment s) :=
  inferInstanceAs (Decidable (s ≠ [] ∧ sep ∉ s ∧ ' ' ∉ s))

/-- The declared path `/s1/s2/.../sn` built from the segments `s1 ... sn`. -/
def absolute_path : List Str → Str
  | [] => []
  | s :: rest => sep :: (s ++ absolute_path rest)

/-- The live registrants of the registry, in slot order. -/
def live (class_list : ClassList) : List ParameterAcceptor :=
  class_list.filterMap id

/-- Every live registrant sits in the slot its `acceptor_id` names (what the
constructor establishes and the destructor keeps). -/
def SlotsMatchIds (class_list : ClassList) : Prop :=
  ∀ (i : Nat) (a : ParameterAcceptor), class_list[i]? = some (some a) → a.acceptor_id = i

/-- Every live registrant has a section path. -/
def AllResolve (class_list : ClassList) : Prop :=
  ∀ a, some a ∈ class_list → ∃ p, a.get_section_path class_list = Except.ok p

end ParameterAcceptor

/-! ### Example registries -/

namespace Examples

/-- A registrant with the given id and declared path, of type `Acc`. -/
def reg (id : Nat) (path : String) : ParameterAcceptor :=
  { acceptor_id := id, section_name := path.toList, type_name := "Acc".toList }

/-- Two registrants: the given declared path in slot 0, then the second one. -/
def two (first second : String) : ClassList :=
  [some (reg 0 first), some (reg 1 second)]

/-- A tombstone in slot 0, then a registrant with the given declared path. -/
def after_tombstone (second : String) : ClassList :=
  [none, some (reg 1 second)]

/-- A registry of three slots with a tombstone in the middle: `/X/Y/`, a
destroyed registrant, `C/D`. -/
def with_tombstone : ClassList :=
  [some (reg 0 "/X/Y/"), none, some (reg 2 "C/D")]

/-- A handler at top level with an empty log. -/
def fresh : ParameterHandler :=
  { subsection_path := [], log := [] }

end Examples

/-- The calls logged by the handler, oldest first. -/
def ParameterHandler.calls (prm : ParameterHandler) : List Call :=
  prm.log.map Prod.fst

namespace ParameterAcceptor

/-- The calls of one visit: one `enter_subsection` per segment of the path, the
callback and its hook, then one `leave_subsection` per segment. -/
def visit_calls (callback hook : Nat → Call) (a : ParameterAcceptor) (path : List Str) :
    List Call :=
  path.map Call.enter_subsection ++ [callback a.acceptor_id, hook a.acceptor_id] ++
    List.replicate path.length Call.leave_subsection

/-- The resolved path of a registrant (empty when there is none). -/
def path_of (class_list : ClassList) (a : ParameterAcceptor) : List Str :=
  match a.get_section_path class_list with
  | Except.ok p => p
  | Except.error _ => []

/-- The calls of a whole pass: the visits of the live registrants, in slot order. -/
def pass_calls (callback hook : Nat → Call) (class_list : ClassList) : List Call :=
  (live class_list).flatMap (fun a => visit_calls callback hook a (path_of class_list a))

/-- The indices of the live slots of `slots`, in ascending order, the first slot
having index `first`. -/
def live_indices_from : Nat → List (Option ParameterAcceptor) → List Nat
  | _, [] => []
  | first, none :: rest => live_indices_from (first + 1) rest
  | first, some _ :: rest => first :: live_indices_from (first + 1) rest

/-- The indices of the live slots of the registry, in ascending order. -/
def live_indices (class_list : ClassList) : List Nat :=
  live_indices_from 0 class_list

/-- The ids on which a main callback (`declare_parameters` or
`parse_parameters`) was invoked, in call order. -/
def callback_ids (calls : List Call) : List Nat :=
  calls.filterMap (fun c =>
    match c with
    | Call.declare_parameters i => some i
    | Call.parse_parameters i => some i
    | _ => none)

/-- The ids on which a hook (`declare_parameters_call_back` or
`parse_parameters_call_back`) was invoked, in call order. -/
def hook_ids (calls : List Call) : List Nat :=
  calls.filterMap (fun c =>
    match c with
    | Call.declare_parameters_call_back i => some i
    | Call.parse_parameters_call_back i => some i
    | _ => none)

end ParameterAcceptor

/-! ### Sequences of registry operations -/

/-- An operation on the registry: building a registrant, destroying the `k`-th
registrant built so far, or `ParameterAcceptor::clear()`. -/
inductive Op where
  | register (name type_name : Str)
  | unregister (k : Nat)
  | reset
  deriving DecidableEq, Repr

/-- The registry together with every registrant built so far, in the order of
construction (the objects owned by the application). -/
structure World where
  class_list : ClassList
  objects : List ParameterAcceptor
  deriving DecidableEq, Repr

namespace World

/-- The state at program start: an empty `class_list`, no registrant built. -/
def start : World :=
  { class_list := [], objects := [] }

/-- One operation.  `unregister k` runs the destructor of the `k`-th registrant
built so far and does nothing when there is no such registrant. -/
def step (w : World) : Op → Except Failure World
  | Op.register name type_name =>
    Except.ok
      { class_list := (ParameterAcceptor.construct w.class_list name type_name).2,
        objects := w.objects ++ [(ParameterAcceptor.construct w.class_list name type_name).1] }
  | Op.unregister k =>
    match w.objects[k]? with
    | none => Except.ok w
    | some a =>
      match a.destruct w.class_list with
      | Except.error e => Except.error e
      | Except.ok cl => Except.ok { class_list := cl, objects := w.objects }
  | Op.reset =>
    Except.ok { class_list := ParameterAcceptor.clear w.class_list, objects := w.objects }

/-- A sequence of operations, left to right. -/
def run : List Op → World → Except Failure World
  | [], w => Except.ok w
  | op :: rest, w =>
    match w.step op with
    | Except.error e => Except.error e
    | Except.ok w1 => run rest w1

/-- The number of registrations in a sequence of operations. -/
def registrations : List Op → Nat
  | [] => 0
  | Op.register _ _ :: rest => registrations rest + 1
  | _ :: rest => registrations rest

end World

namespace ParameterAcceptor

/-- The log entries of the enters of one visit: segment by segment, each with
the stack it is issued on. -/
def enter_log (stack : List Str) : List Str → List (Call × List Str)
  | [] => []
  | x :: rest => (Call.enter_subsection x, stack) :: enter_log (stack ++ [x]) rest

/-- The log entries of `n` leaves issued on `stack`. -/
def leave_log (stack : List Str) : Nat → List (Call × List Str)
  | 0 => []
  | n + 1 => (Call.leave_subsection, stack) :: leave_log stack.dropLast n

/-- The call of the parse pass that stands where the given call of the declare
pass stands: the callback and the hook are exchanged, the calls to the store
are kept. -/
def as_parse : Call → Call
  | Call.declare_parameters i => Call.parse_parameters i
  | Call.declare_parameters_call_back i => Call.parse_parameters_call_back i
  | c => c

/-- The calls made to the store: `enter_subsection` and `leave_subsection`. -/
def store_calls (calls : List Call) : List Call :=
  calls.filter (fun c =>
    match c with
    | Call.enter_subsection _ => true
    | Call.leave_subsection => true
    | _ => false)

/-- The two registries hold the same thing in slot `k` as far as
`get_section_path` is concerned: both dead or out of range alike, or both live
with the same section name. -/
def SameSlot (first second : ClassList) (k : Nat) : Prop :=
  (first[k]?).map (Option.map get_section_name) =
    (second[k]?).map (Option.map get_section_name)

instance (first second : ClassList) (k : Nat) : Decidable (SameSlot first second k) :=
  inferInstanceAs (Decidable
    ((first[k]?).map (Option.map get_section_name) =
      (second[k]?).map (Option.map get_section_name)))

end ParameterAcceptor

namespace ParameterAcceptor

/-- The split of a section name has no empty segment, apart from the leading
one that marks the path as absolute. -/
def NoEmptySegment (name : Str) : Prop :=
  [] ∉ (if is_absolute (Utilities.split_string_list name sep) = true
    then (Utilities.split_string_list name sep).drop 1
    else Utilities.split_string_list name sep)

instance (name : Str) : Decidable (NoEmptySegment name) :=
  inferInstanceAs (Decidable
    ([] ∉ (if is_absolute (Utilities.split_string_list name sep) = true
      then (Utilities.split_string_list name sep).drop 1
      else Utilities.split_string_list name sep)))

end ParameterAcceptor

namespace ParameterAcceptor

/-- The name is the separator followed by one or more blanks and nothing else. -/
def BlankAfterSeparator (name : Str) : Prop :=
  ∃ tail : Str, name = sep :: tail ∧ tail ≠ [] ∧ ∀ c ∈ tail, c = ' '

end ParameterAcceptor

/-! ## The string helper -/

namespace Utilities

theorem dropWhile_blank_snoc (l : Str) (c : Char) (hc : c ≠ ' ') :
    (l ++ [c]).dropWhile (fun c => c == ' ') = l.dropWhile (fun c => c == ' ') ++ [c] := by
  induction l with
  | nil => simp [List.dropWhile_cons, hc]
  | cons x l ih =>
    by_cases hx : x = ' '
    · simp [List.dropWhile_cons, hx, ih]
    · simp [List.dropWhile_cons, hx]

theorem strip_back_cons (c : Char) (s : Str) (hc : c ≠ ' ') :
    strip_back (c :: s) = c :: strip_back s := by
  simp [strip_back, dropWhile_blank_snoc _ _ hc]

theorem dropWhile_blank_of_not_mem (s : Str) (h : ' ' ∉ s) :
    s.dropWhile (fun c => c == ' ') = s := by
  cases s with
  | nil => rfl
  | cons x l =>
    have hx : x ≠ ' ' := fun e => h (by simp [e])
    simp [List.dropWhile_cons, hx]

theorem strip_back_of_not_mem (s : Str) (h : ' ' ∉ s) : strip_back s = s := by
  have h2 : ' ' ∉ s.reverse := by simpa using h
  simp [strip_back, dropWhile_blank_of_not_mem _ h2]

theorem strip_of_not_mem (s : Str) (h : ' ' ∉ s) : strip s = s := by
  simp [strip, strip_front, dropWhile_blank_of_not_mem _ h, strip_back_of_not_mem _ h]

theorem dropWhile_blank_of_head (s : Str) (h : s.head? ≠ some ' ') :
    s.dropWhile (fun c => c == ' ') = s := by
  cases s with
  | nil => rfl
  | cons x l =>
    have hx : x ≠ ' ' := fun e => h (by simp [e])
    simp [List.dropWhile_cons, hx]

theorem strip_back_of_getLast (s : Str) (h : s.getLast? ≠ some ' ') : strip_back s = s := by
  have h2 : s.reverse.head? ≠ some ' ' := by simpa using h
  simp [strip_back, dropWhile_blank_of_head _ h2]

theorem strip_of_ends (s : Str) (h1 : s.head? ≠ some ' ') (h2 : s.getLast? ≠ some ' ') :
    strip s = s := by
  simp [strip, strip_front, dropWhile_blank_of_head _ h1, strip_back_of_getLast _ h2]

theorem strip_back_ne_nil (s : Str) (h : ∃ c ∈ s, c ≠ ' ') : strip_back s ≠ [] := by
  obtain ⟨c, hc, hne⟩ := h
  intro e
  have e2 : s.reverse.dropWhile (fun c => c == ' ') = [] := by
    simpa [strip_back] using e
  rw [List.dropWhile_eq_nil_iff] at e2
  have := e2 c (by simpa using hc)
  simp [hne] at this

theorem takeWhile_ne_append (d : Char) (s t : Str) (h : d ∉ s) :
    (s ++ d :: t).takeWhile (fun c => c != d) = s := by
  induction s with
  | nil => simp [List.takeWhile_cons]
  | cons x l ih =>
    have hx : x ≠ d := fun e => h (by simp [e])
    have hl : d ∉ l := fun e => h (by simp [e])
    simp [List.takeWhile_cons, hx, ih hl]

theorem dropWhile_ne_append (d : Char) (s t : Str) (h : d ∉ s) :
    (s ++ d :: t).dropWhile (fun c => c != d) = d :: t := by
  induction s with
  | nil => simp [List.dropWhile_cons]
  | cons x l ih =>
    have hx : x ≠ d := fun e => h (by simp [e])
    have hl : d ∉ l := fun e => h (by simp [e])
    simp [List.dropWhile_cons, hx, ih hl]

theorem split_loop_segment (d : Char) (n : Nat) (s t : Str) (h : d ∉ s) :
    split_loop d (n + 1) (s ++ d :: t) = strip s :: split_loop d n t := by
  have hne : s ++ d :: t ≠ [] := by simp
  have hmem : d ∈ s ++ d :: t := by simp
  simp only [split_loop, hne, hmem, if_true, if_false, takeWhile_ne_append d s t h,
    dropWhile_ne_append d s t h, List.drop_succ_cons, List.drop_zero]

theorem split_loop_cons_delim (d : Char) (n : Nat) (r : Str) :
    split_loop d (n + 1) (d :: r) = [] :: split_loop d n r := by
  have := split_loop_segment d n [] r (by simp)
  simpa [strip, strip_front, strip_back] using this

theorem split_loop_last (d : Char) (n : Nat) (s : Str) (h : d ∉ s) (hs : s ≠ []) :
    split_loop d (n + 1) s = [strip s] := by
  simp only [split_loop, hs, h, if_false]

theorem split_loop_ne_nil (d : Char) (n : Nat) (r : Str) (hr : r ≠ []) :
    split_loop d (n + 1) r ≠ [] := by
  by_cases hmem : d ∈ r
  · simp [split_loop, hr, hmem]
  · simp [split_loop, hr, hmem]

theorem split_string_list_cons_delim (d : Char) (rest : Str) (hd : d ≠ ' ') :
    split_string_list (d :: rest) d =
      [] :: split_loop d (strip_back rest).length (strip_back rest) := by
  simp only [split_string_list, strip_back_cons d rest hd, List.length_cons,
    split_loop_cons_delim]

theorem split_string_list_single (d : Char) (s : Str) (hs : s ≠ []) (hd : d ∉ s)
    (h1 : s.head? ≠ some ' ') (h2 : s.getLast? ≠ some ' ') :
    split_string_list s d = [s] := by
  obtain ⟨n, hn⟩ : ∃ n, s.length = n + 1 := by
    cases s with
    | nil => exact absurd rfl hs
    | cons x l => exact ⟨l.length, rfl⟩
  simp only [split_string_list, strip_back_of_getLast s h2, hn,
    split_loop_last d n s hd hs, strip_of_ends s h1 h2]

theorem length_split_string_list_gt (d : Char) (rest : Str) (hd : d ≠ ' ')
    (h : ∃ c ∈ rest, c ≠ ' ') : 1 < (split_string_list (d :: rest) d).length := by
  have hne := strip_back_ne_nil rest h
  rw [split_string_list_cons_delim d rest hd]
  obtain ⟨n, hn⟩ : ∃ n, (strip_back rest).length = n + 1 := by
    cases hr : strip_back rest with
    | nil => exact absurd hr hne
    | cons x l => exact ⟨l.length, rfl⟩
  have := split_loop_ne_nil d n (strip_back rest) hne
  rw [hn]
  cases hsl : split_loop d (n + 1) (strip_back rest) with
  | nil => exact absurd hsl this
  | cons x l => simp

end Utilities

/-! ## Section names and the scan over earlier slots -/

namespace ParameterAcceptor

theorem sep_ne_blank : sep ≠ ' ' := by decide

theorem get_section_name_of_head (q : ParameterAcceptor)
    (h : q.section_name.head? = some sep) : q.get_section_name = q.section_name := by
  have hne : q.section_name ≠ [] := by
    intro e
    rw [e] at h
    simp at h
  simp [get_section_name, hne]

theorem head_get_section_name (r : ParameterAcceptor) (ht : r.type_name.head? ≠ some sep) :
    r.get_section_name.head? = some sep ↔ r.section_name.head? = some sep := by
  by_cases hne : r.section_name = []
  · simp [get_section_name, hne, ht]
  · simp [get_section_name, hne]

theorem head_split_loop_ne_nil (n : Nat) (c : Char) (r : Str) (h1 : c ≠ sep) (h2 : c ≠ ' ') :
    (Utilities.split_loop sep (n + 1) (c :: r)).head? ≠ some [] := by
  have hstrip : ∀ x : Str, Utilities.strip (c :: x) = c :: Utilities.strip_back x := by
    intro x
    simp [Utilities.strip, Utilities.strip_front, List.dropWhile_cons, h2,
      Utilities.strip_back_cons c x h2]
  by_cases hmem : sep ∈ c :: r
  · simp [Utilities.split_loop, hmem, List.takeWhile_cons, h1, hstrip]
  · simp only [Utilities.split_loop, hmem, if_false, hstrip]
    simp

/-- A declared path whose first character is neither the separator nor a blank
is one `get_section_path` treats as relative. -/
theorem relative_of_first_char (a : ParameterAcceptor) (c : Char) (tail : Str)
    (hpath : a.section_name = c :: tail) (h1 : c ≠ sep) (h2 : c ≠ ' ') : Relative a := by
  have hname : a.get_section_name = c :: tail := by
    simp [get_section_name, hpath]
  have hhead := head_split_loop_ne_nil (Utilities.strip_back tail).length c
    (Utilities.strip_back tail) h1 h2
  simp only [Relative, own_sections, hname, Utilities.split_string_list,
    Utilities.strip_back_cons c tail h2, List.length_cons, is_absolute]
  simp [hhead]

theorem slots_match_ids_nil : SlotsMatchIds [] := by
  intro i a h
  simp at h

theorem slots_match_ids_construct (class_list : ClassList) (name type_name : Str)
    (h : SlotsMatchIds class_list) :
    SlotsMatchIds (construct class_list name type_name).2 := by
  intro i a hi
  simp only [construct] at hi
  by_cases hlt : i < class_list.length
  · rw [List.getElem?_append_left hlt] at hi
    exact h i a hi
  · have hge : class_list.length ≤ i := Nat.le_of_not_lt hlt
    rw [List.getElem?_append_right hge] at hi
    cases hk : i - class_list.length with
    | zero =>
      rw [hk] at hi
      simp only [List.getElem?_cons_zero, Option.some.injEq] at hi
      rw [← hi]
      simp only
      omega
    | succ m =>
      rw [hk] at hi
      simp at hi

theorem slots_match_ids_destruct (class_list after : ClassList) (self : ParameterAcceptor)
    (h : SlotsMatchIds class_list) (hd : self.destruct class_list = Except.ok after) :
    SlotsMatchIds after := by
  unfold destruct at hd
  by_cases hlt : self.acceptor_id < class_list.length
  · simp only [hlt, if_true, Except.ok.injEq] at hd
    subst hd
    intro i a hi
    by_cases hi2 : self.acceptor_id = i
    · rw [hi2, List.getElem?_set_self (by omega)] at hi
      simp at hi
    · rw [List.getElem?_set_ne hi2] at hi
      exact h i a hi
  · simp [hlt] at hd

theorem lt_length_of_live {class_list : ClassList} {a : ParameterAcceptor}
    (h : IsLive class_list a) : a.acceptor_id < class_list.length := by
  unfold IsLive at h
  by_contra hlt
  rw [List.getElem?_eq_none (Nat.le_of_not_lt hlt)] at h
  exact absurd h (by simp)

theorem scan_earlier_skip (class_list : ClassList) (sections : List Str) (i : Nat)
    (hi : i ≤ class_list.length)
    (h : ∀ (k : Nat) (r : ParameterAcceptor), k < i → class_list[k]? = some (some r) →
      r.get_section_name.head? ≠ some sep) :
    scan_earlier class_list sections i = Except.ok sections := by
  induction i with
  | zero => rfl
  | succ n ih =>
    have hn : n < class_list.length := hi
    have ih2 := ih (Nat.le_of_lt hn) (fun k r hk => h k r (Nat.lt_succ_of_lt hk))
    have hget : class_list[n]? = some class_list[n] := List.getElem?_eq_getElem hn
    cases hslot : class_list[n] with
    | none =>
      rw [hslot] at hget
      simp only [scan_earlier, hget, ih2]
    | some r =>
      rw [hslot] at hget
      have hr := h n r (Nat.lt_succ_self n) hget
      simp only [scan_earlier, hget, hr, if_false, ih2]

theorem scan_earlier_hit (class_list : ClassList) (sections : List Str) (i j : Nat)
    (q : ParameterAcceptor) (hi : i ≤ class_list.length) (hj : j < i)
    (hq : class_list[j]? = some (some q)) (habs : q.get_section_name.head? = some sep)
    (h : ∀ (k : Nat) (r : ParameterAcceptor), j < k → k < i →
      class_list[k]? = some (some r) → r.get_section_name.head? ≠ some sep) :
    scan_earlier class_list sections i = prepend_absolute q.get_section_name sections := by
  induction i with
  | zero => exact absurd hj (Nat.not_lt_zero j)
  | succ n ih =>
    have hn : n < class_list.length := hi
    by_cases hjn : j = n
    · subst hjn
      simp only [scan_earlier, hq, habs, if_true]
    · have hjlt : j < n := Nat.lt_of_le_of_ne (Nat.le_of_lt_succ hj) hjn
      have ih2 := ih (Nat.le_of_lt hn) hjlt
        (fun k r hjk hk => h k r hjk (Nat.lt_succ_of_lt hk))
      have hget : class_list[n]? = some class_list[n] := List.getElem?_eq_getElem hn
      cases hslot : class_list[n] with
      | none =>
        rw [hslot] at hget
        simp only [scan_earlier, hget, ih2]
      | some r =>
        rw [hslot] at hget
        have hr := h n r hjlt (Nat.lt_succ_self n) hget
        simp only [scan_earlier, hget, hr, if_false, ih2]

theorem get_section_path_of_live (class_list : ClassList) (a : ParameterAcceptor)
    (hlive : IsLive class_list a) :
    a.get_section_path class_list =
      if is_absolute a.own_sections = true then Except.ok (a.own_sections.drop 1)
      else scan_earlier class_list a.own_sections a.acceptor_id := by
  have hlt := lt_length_of_live hlive
  unfold IsLive at hlive
  by_cases habs : is_absolute a.own_sections = true
  · have habs2 : is_absolute (Utilities.split_string_list a.get_section_name sep) = true := habs
    simp [get_section_path, hlt, hlive, habs, habs2, own_sections]
  · have habs2 : is_absolute (Utilities.split_string_list a.get_section_name sep) = false := by
      simpa [own_sections] using habs
    simp [get_section_path, hlt, hlive, habs, habs2, own_sections]

theorem get_section_path_relative_nearest (class_list : ClassList) (a q : ParameterAcceptor)
    (j : Nat) (hlive : IsLive class_list a) (hrel : Relative a)
    (hnames : TypeNamesPlain class_list)
    (hnear : NearestAbsolute class_list a.acceptor_id j q) :
    a.get_section_path class_list = prepend_absolute q.section_name a.own_sections := by
  obtain ⟨hj, hq, hqabs, hbetween⟩ := hnear
  have hrel2 : is_absolute a.own_sections = false := hrel
  rw [get_section_path_of_live class_list a hlive, hrel2]
  simp only [Bool.false_eq_true, if_false]
  rw [← get_section_name_of_head q hqabs]
  refine scan_earlier_hit class_list a.own_sections a.acceptor_id j q
    (Nat.le_of_lt (lt_length_of_live hlive)) hj hq ?_ ?_
  · rw [get_section_name_of_head q hqabs]
    exact hqabs
  · intro k r hjk hk hr hhead
    exact hbetween k r hjk hk hr ((head_get_section_name r (hnames k r hr)).mp hhead)

theorem get_section_path_relative_none (class_list : ClassList) (a : ParameterAcceptor)
    (hlive : IsLive class_list a) (hrel : Relative a)
    (hnames : TypeNamesPlain class_list)
    (hnone : NoAbsoluteBelow class_list a.acceptor_id) :
    a.get_section_path class_list = Except.ok a.own_sections := by
  have hrel2 : is_absolute a.own_sections = false := hrel
  rw [get_section_path_of_live class_list a hlive, hrel2]
  simp only [Bool.false_eq_true, if_false]
  refine scan_earlier_skip class_list a.own_sections a.acceptor_id
    (Nat.le_of_lt (lt_length_of_live hlive)) ?_
  intro k r hk hr hhead
  exact hnone k r hk hr ((head_get_section_name r (hnames k r hr)).mp hhead)

theorem prepend_absolute_trailing (name : Str) (sections : List Str)
    (hhead : name.head? = some sep) (hlast : name.getLast? = some sep) :
    prepend_absolute name sections =
      Except.ok ((Utilities.split_string_list name sep).drop 1 ++ sections) := by
  cases name with
  | nil => simp at hhead
  | cons c rest =>
    have hc : c = sep := by simpa using hhead
    subst hc
    have hsplit := Utilities.split_string_list_cons_delim sep rest sep_ne_blank
    simp only [prepend_absolute, hsplit, hlast]
    simp

theorem prepend_absolute_no_trailing (name : Str) (sections : List Str)
    (hhead : name.head? = some sep) (hlast : name.getLast? ≠ some sep)
    (hlen : 2 ≤ (Utilities.split_string_list name sep).length) :
    prepend_absolute name sections =
      Except.ok (((Utilities.split_string_list name sep).drop 1).dropLast ++ sections) := by
  cases name with
  | nil => simp at hhead
  | cons c rest =>
    have hc : c = sep := by simpa using hhead
    subst hc
    have hsplit := Utilities.split_string_list_cons_delim sep rest sep_ne_blank
    rw [hsplit] at hlen
    simp only [prepend_absolute, hsplit, hlast]
    have h1 : 1 ≤ (Utilities.split_loop sep (Utilities.strip_back rest).length
        (Utilities.strip_back rest)).length := by
      simpa using hlen
    generalize Utilities.split_loop sep (Utilities.strip_back rest).length
      (Utilities.strip_back rest) = tl at h1
    cases tl with
    | nil => simp at h1
    | cons x l => simp [List.dropLast_eq_take]

end ParameterAcceptor

/-! ## Paths built from plain segments -/

namespace ParameterAcceptor

theorem blank_not_mem_absolute_path (segs : List Str) (h : ∀ s ∈ segs, PlainSegment s) :
    ' ' ∉ absolute_path segs := by
  induction segs with
  | nil => simp [absolute_path]
  | cons t rest ih =>
    have ht := h t (by simp)
    have hrest := ih (fun s hs => h s (by simp [hs]))
    simp only [absolute_path, List.mem_cons, List.mem_append, not_or]
    exact ⟨fun e => sep_ne_blank e.symm, ht.2.2, hrest⟩

theorem split_loop_segments (rest : List Str) :
    ∀ (s : Str) (n : Nat), PlainSegment s → (∀ t ∈ rest, PlainSegment t) →
      (s ++ absolute_path rest).length ≤ n →
      Utilities.split_loop sep n (s ++ absolute_path rest) = s :: rest := by
  induction rest with
  | nil =>
    intro s n hs _ hlen
    simp only [absolute_path, List.append_nil] at hlen ⊢
    cases n with
    | zero =>
      have : s = [] := List.length_eq_zero.mp (Nat.le_zero.mp hlen)
      exact absurd this hs.1
    | succ m =>
      rw [Utilities.split_loop_last sep m s hs.2.1 hs.1, Utilities.strip_of_not_mem s hs.2.2]
  | cons t rest ih =>
    intro s n hs hrest hlen
    simp only [absolute_path] at hlen ⊢
    cases n with
    | zero => simp at hlen
    | succ m =>
      rw [Utilities.split_loop_segment sep m s _ hs.2.1, Utilities.strip_of_not_mem s hs.2.2]
      have hlen2 : (t ++ absolute_path rest).length ≤ m := by
        simp only [List.length_append, List.length_cons] at hlen ⊢
        omega
      rw [ih t m (hrest t (by simp)) (fun u hu => hrest u (by simp [hu])) hlen2]

theorem split_absolute_path (s : Str) (rest : List Str)
    (h : ∀ t ∈ s :: rest, PlainSegment t) :
    Utilities.split_string_list (absolute_path (s :: rest)) sep = [] :: s :: rest := by
  have hblank := blank_not_mem_absolute_path (s :: rest) h
  simp only [Utilities.split_string_list, Utilities.strip_back_of_not_mem _ hblank]
  simp only [absolute_path, List.length_cons, Utilities.split_loop_cons_delim]
  rw [split_loop_segments rest s _ (h s (by simp)) (fun t ht => h t (by simp [ht]))
    (Nat.le_refl _)]

theorem own_sections_of_plain_type_name (a : ParameterAcceptor) (hempty : a.section_name = [])
    (hplain : PlainTypeName a.type_name) : a.own_sections = [a.type_name] := by
  obtain ⟨h1, h2, h3, h4⟩ := hplain
  simp only [own_sections, get_section_name, hempty, ne_eq, not_true_eq_false, if_false]
  exact Utilities.split_string_list_single sep a.type_name h1 h2 h3 h4

theorem type_names_plain_of_all (class_list : ClassList)
    (h : ∀ s ∈ class_list, ∀ r ∈ s, r.type_name.head? ≠ some sep) :
    TypeNamesPlain class_list := by
  intro k r hk
  exact h (some r) (List.getElem?_mem hk) r rfl

theorem no_absolute_below_of_all (class_list : ClassList) (i : Nat)
    (h : ∀ k < i, ∀ r ∈ class_list.getD k none, r.section_name.head? ≠ some sep) :
    NoAbsoluteBelow class_list i := by
  intro k r hk hr
  have := h k hk r
  rw [List.getD_eq_getElem?_getD, hr] at this
  exact this (by simp)

theorem all_resolve_of_all (class_list : ClassList)
    (h : ∀ s ∈ class_list, ∀ a ∈ s, (a.get_section_path class_list).toBool = true) :
    AllResolve class_list := by
  intro a ha
  have := h (some a) ha a rfl
  cases hp : a.get_section_path class_list with
  | error e => simp [hp, Except.toBool] at this
  | ok p => exact ⟨p, rfl⟩

theorem slots_match_ids_of_all (class_list : ClassList)
    (h : ∀ i < class_list.length, ∀ a ∈ class_list.getD i none, a.acceptor_id = i) :
    SlotsMatchIds class_list := by
  intro i a hi
  have hlt : i < class_list.length := by
    by_contra hge
    rw [List.getElem?_eq_none (Nat.le_of_not_lt hge)] at hi
    exact absurd hi (by simp)
  have := h i hlt a
  rw [List.getD_eq_getElem?_getD, hi] at this
  exact this (by simp)

end ParameterAcceptor

/-! ## Path resolution: the claims -/

namespace ParameterAcceptor

open Examples

/-- C1 (as amended): for a live registrant that `get_section_path` treats as
relative, the prefix comes from exactly one slot, the greatest `j` below it that
is live and whose declared path begins with the separator: the result is that
slot's prefix put before the registrant's own segments, and any other registry
with the same registrant and the same declared path in its nearest absolute
slot gives the same result. -/
theorem get_section_path_nearest_wins (class_list : ClassList) (a q : ParameterAcceptor)
    (j : Nat) (hlive : IsLive class_list a) (hrel : Relative a)
    (hnames : TypeNamesPlain class_list)
    (hnear : NearestAbsolute class_list a.acceptor_id j q) :
    a.get_section_path class_list = prepend_absolute q.section_name a.own_sections ∧
    ∀ (other : ClassList) (j2 : Nat) (q2 : ParameterAcceptor), IsLive other a →
      TypeNamesPlain other → NearestAbsolute other a.acceptor_id j2 q2 →
      q2.section_name = q.section_name →
      a.get_section_path other = a.get_section_path class_list := by
  have h1 := get_section_path_relative_nearest class_list a q j hlive hrel hnames hnear
  refine ⟨h1, ?_⟩
  intro other j2 q2 hlive2 hnames2 hnear2 hsame
  rw [h1, get_section_path_relative_nearest other a q2 j2 hlive2 hrel hnames2 hnear2, hsame]

/-- C1, witness: registrant 1 declared `C/D` after `/X/Y/` in slot 0. -/
theorem get_section_path_nearest_wins_witness :
    (reg 1 "C/D").get_section_path (two "/X/Y/" "C/D") =
      prepend_absolute "/X/Y/".toList (reg 1 "C/D").own_sections :=
  (get_section_path_nearest_wins (two "/X/Y/" "C/D") (reg 1 "C/D") (reg 0 "/X/Y/") 0
    (by decide) (by decide) (type_names_plain_of_all _ (by decide))
    ⟨by decide, by decide, by decide, fun k r h1 h2 => by
      have : k < 1 := h2
      omega⟩).1

/-- C1, counterexample: the declared path ` /A` is not empty and does not begin
with the separator, slot 0 (`/X/`) is the nearest live absolute slot, and yet
the result is `["A"]`: nothing of slot 0 is put in front, and replacing slot 0
by `/Z/` changes nothing. -/
theorem blank_then_separator_takes_no_prefix :
    IsLive (two "/X/" " /A") (reg 1 " /A") ∧
    (reg 1 " /A").section_name ≠ [] ∧
    (reg 1 " /A").section_name.head? ≠ some sep ∧
    (two "/X/" " /A")[0]? = some (some (reg 0 "/X/")) ∧
    (reg 0 "/X/").section_name.head? = some sep ∧
    (reg 1 " /A").get_section_path (two "/X/" " /A") = Except.ok ["A".toList] ∧
    (reg 1 " /A").get_section_path (two "/Z/" " /A") = Except.ok ["A".toList] ∧
    (reg 1 " /A").get_section_path (two "/X/" " /A") ≠
      prepend_absolute (reg 0 "/X/").section_name (reg 1 " /A").own_sections := by
  decide

/-- C2: for a relative target whose nearest live absolute ancestor has a
declared path that ends with the separator, the result is all of the
ancestor's segments after the leading empty one, followed by the target's own
segments. -/
theorem get_section_path_trailing_separator (class_list : ClassList)
    (a q : ParameterAcceptor) (j : Nat) (hlive : IsLive class_list a) (hrel : Relative a)
    (hnames : TypeNamesPlain class_list)
    (hnear : NearestAbsolute class_list a.acceptor_id j q)
    (htrail : q.section_name.getLast? = some sep) :
    a.get_section_path class_list =
      Except.ok ((Utilities.split_string_list q.section_name sep).drop 1 ++ a.own_sections) := by
  rw [get_section_path_relative_nearest class_list a q j hlive hrel hnames hnear]
  exact prepend_absolute_trailing q.section_name a.own_sections hnear.2.2.1 htrail

/-- C2, witness: `/X/Y/` in slot 0 and `C/D` in slot 1 give `X, Y, C, D`. -/
theorem get_section_path_trailing_separator_witness :
    (reg 1 "C/D").get_section_path (two "/X/Y/" "C/D") =
      Except.ok ["X".toList, "Y".toList, "C".toList, "D".toList] :=
  (get_section_path_trailing_separator (two "/X/Y/" "C/D") (reg 1 "C/D") (reg 0 "/X/Y/") 0
    (by decide) (by decide) (type_names_plain_of_all _ (by decide))
    ⟨by decide, by decide, by decide, fun k r h1 h2 => by
      have : k < 1 := h2
      omega⟩ (by decide)).trans (by decide)

/-- The rule of C3 wherever the ancestor's split has a segment after the leading
empty one: without a trailing separator the ancestor's last segment is dropped
as well. -/
theorem get_section_path_no_trailing_separator (class_list : ClassList)
    (a q : ParameterAcceptor) (j : Nat) (hlive : IsLive class_list a) (hrel : Relative a)
    (hnames : TypeNamesPlain class_list)
    (hnear : NearestAbsolute class_list a.acceptor_id j q)
    (htrail : q.section_name.getLast? ≠ some sep)
    (hlen : 2 ≤ (Utilities.split_string_list q.section_name sep).length) :
    a.get_section_path class_list =
      Except.ok (((Utilities.split_string_list q.section_name sep).drop 1).dropLast ++
        a.own_sections) := by
  rw [get_section_path_relative_nearest class_list a q j hlive hrel hnames hnear]
  exact prepend_absolute_no_trailing q.section_name a.own_sections hnear.2.2.1 htrail hlen

/-- The example of C3: `/X/Y` in slot 0 and `C/D` in slot 1 give `X, C, D`. -/
theorem get_section_path_no_trailing_separator_example :
    (reg 1 "C/D").get_section_path (two "/X/Y" "C/D") =
      Except.ok ["X".toList, "C".toList, "D".toList] :=
  (get_section_path_no_trailing_separator (two "/X/Y" "C/D") (reg 1 "C/D") (reg 0 "/X/Y") 0
    (by decide) (by decide) (type_names_plain_of_all _ (by decide))
    ⟨by decide, by decide, by decide, fun k r h1 h2 => by
      have : k < 1 := h2
      omega⟩ (by decide) (by decide)).trans (by decide)

/-- C3, the failing input: slot 0 declares the separator followed by a blank.
The path begins with the separator and does not end with it, its split is the
single empty segment, so the range `[begin+1, end-1)` handed to `insert` ends
before it starts and no path is returned. -/
theorem blank_after_separator_breaks_insert :
    (reg 0 "/ ").section_name.head? = some sep ∧
    (reg 0 "/ ").section_name.getLast? ≠ some sep ∧
    Utilities.split_string_list (reg 0 "/ ").section_name sep = [[]] ∧
    Relative (reg 1 "C/D") ∧
    (reg 1 "C/D").get_section_path (two "/ " "C/D") = Except.error Failure.invalid_range := by
  decide

/-- C4: a registrant whose declared path is the separator followed by one or
more plain segments joined by the separator resolves to exactly those segments,
whatever the registry holds in the other slots. -/
theorem get_section_path_absolute_segments (class_list : ClassList) (a : ParameterAcceptor)
    (s : Str) (rest : List Str) (hlive : IsLive class_list a)
    (hplain : ∀ t ∈ s :: rest, PlainSegment t)
    (hpath : a.section_name = absolute_path (s :: rest)) :
    a.get_section_path class_list = Except.ok (s :: rest) := by
  have hname : a.get_section_name = absolute_path (s :: rest) := by
    simp [get_section_name, hpath, absolute_path]
  have hown : a.own_sections = [] :: s :: rest := by
    simp only [own_sections, hname]
    exact split_absolute_path s rest hplain
  rw [get_section_path_of_live class_list a hlive, hown]
  simp [is_absolute]

/-- C4, witness: `/A/B` resolves to `A, B` although slot 0 declares `/X/Y/`. -/
theorem get_section_path_absolute_segments_witness :
    (reg 1 "/A/B").get_section_path (two "/X/Y/" "/A/B") =
      Except.ok ["A".toList, "B".toList] :=
  get_section_path_absolute_segments (two "/X/Y/" "/A/B") (reg 1 "/A/B") "A".toList
    ["B".toList] (by decide) (by decide) (by decide)

/-- C5 (as amended): a declared path that begins with the separator and has
something other than blanks after it is resolved without any ancestor search:
the result is its own split without the leading empty segment, whatever the
earlier slots hold. -/
theorem get_section_path_absolute_local (class_list : ClassList) (a : ParameterAcceptor)
    (tail : Str) (hlive : IsLive class_list a) (hpath : a.section_name = sep :: tail)
    (hmore : ∃ c ∈ tail, c ≠ ' ') :
    a.get_section_path class_list =
      Except.ok ((Utilities.split_string_list a.section_name sep).drop 1) := by
  have hname : a.get_section_name = sep :: tail := by
    simp [get_section_name, hpath]
  have hown : a.own_sections = Utilities.split_string_list (sep :: tail) sep := by
    simp only [own_sections, hname]
  have hlen := Utilities.length_split_string_list_gt sep tail sep_ne_blank hmore
  have hsplit := Utilities.split_string_list_cons_delim sep tail sep_ne_blank
  have habs : is_absolute a.own_sections = true := by
    rw [hown]
    rw [hsplit] at hlen ⊢
    simp only [is_absolute, List.head?_cons, decide_True, Bool.and_true, decide_eq_true_eq]
    exact hlen
  rw [get_section_path_of_live class_list a hlive, habs, hown, hpath]
  simp

/-- C5, witness: `/A/ B` after `/X/Y/` resolves to `A, B`. -/
theorem get_section_path_absolute_local_witness :
    (reg 1 "/A/ B").get_section_path (two "/X/Y/" "/A/ B") =
      Except.ok ["A".toList, "B".toList] :=
  (get_section_path_absolute_local (two "/X/Y/" "/A/ B") (reg 1 "/A/ B") "A/ B".toList
    (by decide) (by decide) ⟨'A', by decide, by decide⟩).trans (by decide)

/-- C5, counterexample: the declared path that is the separator alone begins
with the separator, yet its result depends on the earlier slot (`X` is put in
front of it when slot 0 declares `/X/`) and is never its split without the
leading empty segment. -/
theorem separator_alone_searches_ancestors :
    (reg 1 "/").section_name.head? = some sep ∧
    (reg 1 "/").get_section_path (two "/X/" "/") = Except.ok ["X".toList, []] ∧
    (reg 1 "/").get_section_path (after_tombstone "/") = Except.ok [[]] ∧
    (Utilities.split_string_list (reg 1 "/").section_name sep).drop 1 = [] := by
  decide

/-- C6 (as amended): a live registrant with an empty declared path is resolved
as the relative path made of its type name: the one-element list with the type
name when no earlier live slot is absolute, and otherwise that segment behind
the prefix of the nearest live absolute slot. -/
theorem get_section_path_empty_declared (class_list : ClassList) (a : ParameterAcceptor)
    (hlive : IsLive class_list a) (hempty : a.section_name = [])
    (hplain : PlainTypeName a.type_name) (hnames : TypeNamesPlain class_list) :
    (NoAbsoluteBelow class_list a.acceptor_id →
      a.get_section_path class_list = Except.ok [a.type_name]) ∧
    (∀ (j : Nat) (q : ParameterAcceptor), NearestAbsolute class_list a.acceptor_id j q →
      a.get_section_path class_list = prepend_absolute q.section_name [a.type_name]) := by
  have hown := own_sections_of_plain_type_name a hempty hplain
  have hrel : Relative a := by
    simp [Relative, hown, is_absolute]
  constructor
  · intro hnone
    rw [get_section_path_relative_none class_list a hlive hrel hnames hnone, hown]
  · intro j q hnear
    rw [get_section_path_relative_nearest class_list a q j hlive hrel hnames hnear, hown]

/-- C6, witness: an empty declared path behind a tombstone resolves to the type
name alone. -/
theorem get_section_path_empty_declared_witness :
    (reg 1 "").get_section_path (after_tombstone "") = Except.ok ["Acc".toList] :=
  (get_section_path_empty_declared (after_tombstone "") (reg 1 "") (by decide) (by decide)
    (by decide) (type_names_plain_of_all _ (by decide))).1
    (no_absolute_below_of_all _ _ (by decide))

/-- C6, counterexample: with `/X/Y/` live in slot 0, the registrant with the
empty declared path resolves to `X, Y, Acc`, not to its type name alone. -/
theorem empty_declared_inherits_prefix :
    (reg 1 "").section_name = [] ∧
    IsLive (two "/X/Y/" "") (reg 1 "") ∧
    (reg 1 "").get_section_path (two "/X/Y/" "") =
      Except.ok ["X".toList, "Y".toList, "Acc".toList] ∧
    (reg 1 "").get_section_path (two "/X/Y/" "") ≠ Except.ok [(reg 1 "").type_name] := by
  decide

/-- C7: the first registration (id 0), declared with the empty path, resolves
to the one-element list holding its type name, for a type name without the
separator and without a blank at either end. -/
theorem get_section_path_first_empty (class_list : ClassList) (a : ParameterAcceptor)
    (hid : a.acceptor_id = 0) (hlive : IsLive class_list a) (hempty : a.section_name = [])
    (hplain : PlainTypeName a.type_name) :
    a.get_section_path class_list = Except.ok [a.type_name] := by
  have hown := own_sections_of_plain_type_name a hempty hplain
  rw [get_section_path_of_live class_list a hlive, hown, hid]
  simp [is_absolute, scan_earlier]

/-- C7, witness: the registrant built first, with the empty path and the type
name `dealii::Acc`. -/
theorem get_section_path_first_empty_witness :
    (construct [] [] "dealii::Acc".toList).1.get_section_path
      (construct [] [] "dealii::Acc".toList).2 = Except.ok ["dealii::Acc".toList] :=
  get_section_path_first_empty (construct [] [] "dealii::Acc".toList).2
    (construct [] [] "dealii::Acc".toList).1 (by decide) (by decide) (by decide) (by decide)

/-- C8: a relative target with no earlier slot that is both live and declared
with a leading separator resolves without error to exactly its own split
segments, nothing put in front. -/
theorem get_section_path_no_ancestor (class_list : ClassList) (a : ParameterAcceptor)
    (hlive : IsLive class_list a) (hrel : Relative a) (hnames : TypeNamesPlain class_list)
    (hnone : NoAbsoluteBelow class_list a.acceptor_id) :
    a.get_section_path class_list =
      Except.ok (Utilities.split_string_list a.get_section_name sep) :=
  get_section_path_relative_none class_list a hlive hrel hnames hnone

/-- C8, witness: `C/D` behind the relative declaration `A/B` resolves to `C, D`. -/
theorem get_section_path_no_ancestor_witness :
    (reg 1 "C/D").get_section_path (two "A/B" "C/D") = Except.ok ["C".toList, "D".toList] :=
  (get_section_path_no_ancestor (two "A/B" "C/D") (reg 1 "C/D") (by decide) (by decide)
    (type_names_plain_of_all _ (by decide))
    (no_absolute_below_of_all _ _ (by decide))).trans (by decide)

end ParameterAcceptor

/-! ## The two passes -/

namespace ParameterAcceptor

open Examples

theorem calls_record (prm : ParameterHandler) (c : Call) :
    (prm.record c).calls = prm.calls ++ [c] := by
  simp [ParameterHandler.record, ParameterHandler.calls]

theorem subsection_path_record (prm : ParameterHandler) (c : Call) :
    (prm.record c).subsection_path = prm.subsection_path := rfl

theorem foldl_enter (sections : List Str) :
    ∀ prm : ParameterHandler,
      (sections.foldl ParameterHandler.enter_subsection prm).subsection_path =
        prm.subsection_path ++ sections ∧
      (sections.foldl ParameterHandler.enter_subsection prm).calls =
        prm.calls ++ sections.map Call.enter_subsection := by
  induction sections with
  | nil => intro prm; simp
  | cons x rest ih =>
    intro prm
    obtain ⟨h1, h2⟩ := ih (prm.enter_subsection x)
    simp only [List.foldl_cons, h1, h2]
    simp [ParameterHandler.enter_subsection, ParameterHandler.calls]

theorem leave_each_ok (sections : List Str) :
    ∀ prm : ParameterHandler, sections.length ≤ prm.subsection_path.length →
      ∃ prm1, leave_each sections prm = Except.ok prm1 ∧
        prm1.subsection_path =
          prm.subsection_path.take (prm.subsection_path.length - sections.length) ∧
        prm1.calls = prm.calls ++ List.replicate sections.length Call.leave_subsection := by
  induction sections with
  | nil => intro prm _; exact ⟨prm, rfl, by simp, by simp⟩
  | cons x rest ih =>
    intro prm hlen
    have hne : prm.subsection_path ≠ [] := by
      intro e
      rw [e] at hlen
      simp at hlen
    have hlen2 : rest.length ≤ prm.subsection_path.dropLast.length := by
      simp only [List.length_cons] at hlen
      simp only [List.length_dropLast]
      omega
    obtain ⟨prm1, h1, h2, h3⟩ := ih
      { subsection_path := prm.subsection_path.dropLast,
        log := prm.log ++ [(Call.leave_subsection, prm.subsection_path)] } hlen2
    refine ⟨prm1, ?_, ?_, ?_⟩
    · simp only [leave_each, ParameterHandler.leave_subsection, hne, if_false, h1]
    · rw [h2]
      simp only [List.length_cons] at hlen
      simp only [List.dropLast_eq_take, List.take_take, List.length_take,
        List.length_cons]
      congr 1
      omega
    · rw [h3]
      simp [ParameterHandler.calls, List.replicate_succ]

theorem bracket_ok (class_list : ClassList) (a : ParameterAcceptor) (prm : ParameterHandler)
    (path : List Str) (c1 c2 : Call) (hpath : a.get_section_path class_list = Except.ok path) :
    ∃ prm1,
      (match a.enter_my_subsection class_list prm with
        | Except.error e => Except.error e
        | Except.ok p1 => a.leave_my_subsection class_list ((p1.record c1).record c2)) =
        Except.ok prm1 ∧
      prm1.subsection_path = prm.subsection_path ∧
      prm1.calls = prm.calls ++
        (path.map Call.enter_subsection ++ [c1, c2] ++
          List.replicate path.length Call.leave_subsection) := by
  obtain ⟨he1, he2⟩ := foldl_enter path prm
  have hlen : path.length ≤
      (((path.foldl ParameterHandler.enter_subsection prm).record c1).record c2).subsection_path.length := by
    simp [subsection_path_record, he1]
  obtain ⟨prm1, h1, h2, h3⟩ := leave_each_ok path _ hlen
  refine ⟨prm1, ?_, ?_, ?_⟩
  · simp only [enter_my_subsection, leave_my_subsection, hpath, h1]
  · rw [h2]
    simp [subsection_path_record, he1]
  · rw [h3]
    simp [calls_record, he2]

theorem path_of_eq (class_list : ClassList) (a : ParameterAcceptor) (path : List Str)
    (hpath : a.get_section_path class_list = Except.ok path) : path_of class_list a = path := by
  simp [path_of, hpath]

theorem declare_visit_ok (class_list : ClassList) (a : ParameterAcceptor)
    (prm : ParameterHandler) (path : List Str)
    (hpath : a.get_section_path class_list = Except.ok path) :
    ∃ prm1, declare_visit class_list a prm = Except.ok prm1 ∧
      prm1.subsection_path = prm.subsection_path ∧
      prm1.calls = prm.calls ++
        visit_calls Call.declare_parameters Call.declare_parameters_call_back a path :=
  bracket_ok class_list a prm path (Call.declare_parameters a.acceptor_id)
    (Call.declare_parameters_call_back a.acceptor_id) hpath

theorem parse_visit_ok (class_list : ClassList) (a : ParameterAcceptor)
    (prm : ParameterHandler) (path : List Str)
    (hpath : a.get_section_path class_list = Except.ok path) :
    ∃ prm1, parse_visit class_list a prm = Except.ok prm1 ∧
      prm1.subsection_path = prm.subsection_path ∧
      prm1.calls = prm.calls ++
        visit_calls Call.parse_parameters Call.parse_parameters_call_back a path :=
  bracket_ok class_list a prm path (Call.parse_parameters a.acceptor_id)
    (Call.parse_parameters_call_back a.acceptor_id) hpath

theorem declare_slots_ok (class_list : ClassList) (hall : AllResolve class_list)
    (slots : List (Option ParameterAcceptor)) :
    ∀ prm : ParameterHandler, (∀ s ∈ slots, s ∈ class_list) →
      ∃ prm1, declare_slots class_list slots prm = Except.ok prm1 ∧
        prm1.subsection_path = prm.subsection_path ∧
        prm1.calls = prm.calls ++ (slots.filterMap id).flatMap (fun a =>
          visit_calls Call.declare_parameters Call.declare_parameters_call_back a
            (path_of class_list a)) := by
  induction slots with
  | nil => intro prm _; exact ⟨prm, rfl, rfl, by simp⟩
  | cons s rest ih =>
    intro prm hsub
    have hrest : ∀ t ∈ rest, t ∈ class_list := fun t ht => hsub t (by simp [ht])
    cases s with
    | none =>
      obtain ⟨prm1, h1, h2, h3⟩ := ih prm hrest
      exact ⟨prm1, by simp only [declare_slots, h1], h2, by simpa using h3⟩
    | some a =>
      obtain ⟨path, hpath⟩ := hall a (hsub (some a) (by simp))
      obtain ⟨prm0, hv1, hv2, hv3⟩ := declare_visit_ok class_list a prm path hpath
      obtain ⟨prm1, h1, h2, h3⟩ := ih prm0 hrest
      refine ⟨prm1, by simp only [declare_slots, hv1, h1], by rw [h2, hv2], ?_⟩
      rw [h3, hv3]
      simp [path_of_eq class_list a path hpath]

theorem parse_slots_ok (class_list : ClassList) (hall : AllResolve class_list)
    (slots : List (Option ParameterAcceptor)) :
    ∀ prm : ParameterHandler, (∀ s ∈ slots, s ∈ class_list) →
      ∃ prm1, parse_slots class_list slots prm = Except.ok prm1 ∧
        prm1.subsection_path = prm.subsection_path ∧
        prm1.calls = prm.calls ++ (slots.filterMap id).flatMap (fun a =>
          visit_calls Call.parse_parameters Call.parse_parameters_call_back a
            (path_of class_list a)) := by
  induction slots with
  | nil => intro prm _; exact ⟨prm, rfl, rfl, by simp⟩
  | cons s rest ih =>
    intro prm hsub
    have hrest : ∀ t ∈ rest, t ∈ class_list := fun t ht => hsub t (by simp [ht])
    cases s with
    | none =>
      obtain ⟨prm1, h1, h2, h3⟩ := ih prm hrest
      exact ⟨prm1, by simp only [parse_slots, h1], h2, by simpa using h3⟩
    | some a =>
      obtain ⟨path, hpath⟩ := hall a (hsub (some a) (by simp))
      obtain ⟨prm0, hv1, hv2, hv3⟩ := parse_visit_ok class_list a prm path hpath
      obtain ⟨prm1, h1, h2, h3⟩ := ih prm0 hrest
      refine ⟨prm1, by simp only [parse_slots, hv1, h1], by rw [h2, hv2], ?_⟩
      rw [h3, hv3]
      simp [path_of_eq class_list a path hpath]

theorem live_ids_eq_indices_from (slots : List (Option ParameterAcceptor)) :
    ∀ first : Nat,
      (∀ (i : Nat) (a : ParameterAcceptor), slots[i]? = some (some a) →
        a.acceptor_id = first + i) →
      (slots.filterMap id).map acceptor_id = live_indices_from first slots := by
  induction slots with
  | nil => intro first _; rfl
  | cons s rest ih =>
    intro first h
    have hrest : ∀ (i : Nat) (a : ParameterAcceptor), rest[i]? = some (some a) →
        a.acceptor_id = first + 1 + i := by
      intro i a hi
      have := h (i + 1) a (by simpa using hi)
      omega
    cases s with
    | none => simpa [live_indices_from] using ih (first + 1) hrest
    | some a =>
      have ha := h 0 a (by simp)
      simp only [List.filterMap_cons, id_eq, List.map_cons, live_indices_from,
        ih (first + 1) hrest]
      simp [ha]

theorem mem_live_indices_from (slots : List (Option ParameterAcceptor)) :
    ∀ first i : Nat, i ∈ live_indices_from first slots ↔
      first ≤ i ∧ ∃ a, slots[i - first]? = some (some a) := by
  induction slots with
  | nil => intro first i; simp [live_indices_from]
  | cons s rest ih =>
    intro first i
    have hstep : ∀ x : Option (Option ParameterAcceptor),
        first + 1 ≤ i → ((s :: rest)[i - first]? = x ↔ rest[i - (first + 1)]? = x) := by
      intro x hle
      have : i - first = (i - (first + 1)) + 1 := by omega
      rw [this, List.getElem?_cons_succ]
    cases s with
    | none =>
      simp only [live_indices_from, ih (first + 1) i]
      constructor
      · rintro ⟨hle, a, ha⟩
        exact ⟨by omega, a, (hstep _ hle).mpr ha⟩
      · rintro ⟨hle, a, ha⟩
        by_cases hi : i = first
        · subst hi
          simp at ha
        · have hle2 : first + 1 ≤ i := by omega
          exact ⟨hle2, a, (hstep _ hle2).mp ha⟩
    | some b =>
      simp only [live_indices_from, List.mem_cons, ih (first + 1) i]
      constructor
      · rintro (hi | ⟨hle, a, ha⟩)
        · subst hi
          exact ⟨Nat.le_refl _, b, by simp⟩
        · exact ⟨by omega, a, (hstep _ hle).mpr ha⟩
      · rintro ⟨hle, a, ha⟩
        by_cases hi : i = first
        · exact Or.inl hi
        · have hle2 : first + 1 ≤ i := by omega
          exact Or.inr ⟨hle2, a, (hstep _ hle2).mp ha⟩

theorem pairwise_live_indices_from (slots : List (Option ParameterAcceptor)) :
    ∀ first : Nat, (live_indices_from first slots).Pairwise (fun i k => i < k) := by
  induction slots with
  | nil => intro first; simp [live_indices_from]
  | cons s rest ih =>
    intro first
    cases s with
    | none => exact ih (first + 1)
    | some b =>
      simp only [live_indices_from, List.pairwise_cons]
      refine ⟨?_, ih (first + 1)⟩
      intro k hk
      have := ((mem_live_indices_from rest (first + 1) k).mp hk).1
      omega

theorem callback_ids_visit_calls (callback hook : Nat → Call) (a : ParameterAcceptor)
    (path : List Str) (hc : callback_ids [callback a.acceptor_id] = [a.acceptor_id])
    (hh : callback_ids [hook a.acceptor_id] = []) :
    callback_ids (visit_calls callback hook a path) = [a.acceptor_id] := by
  have h1 : callback_ids (path.map Call.enter_subsection) = [] := by
    induction path with
    | nil => rfl
    | cons x rest ih => simp [callback_ids]
  have h2 : ∀ n : Nat, callback_ids (List.replicate n Call.leave_subsection) = [] := by
    intro n
    induction n with
    | zero => rfl
    | succ m ih => simp [callback_ids, List.replicate_succ]
  have happ : ∀ l1 l2 : List Call, callback_ids (l1 ++ l2) = callback_ids l1 ++ callback_ids l2 := by
    intro l1 l2
    simp [callback_ids]
  have hcons : callback_ids [callback a.acceptor_id, hook a.acceptor_id] = [a.acceptor_id] := by
    have := happ [callback a.acceptor_id] [hook a.acceptor_id]
    simpa [hc, hh] using this
  simp only [visit_calls, happ, h1, h2, hcons, List.nil_append, List.append_nil]

theorem hook_ids_visit_calls (callback hook : Nat → Call) (a : ParameterAcceptor)
    (path : List Str) (hc : hook_ids [callback a.acceptor_id] = [])
    (hh : hook_ids [hook a.acceptor_id] = [a.acceptor_id]) :
    hook_ids (visit_calls callback hook a path) = [a.acceptor_id] := by
  have h1 : hook_ids (path.map Call.enter_subsection) = [] := by
    induction path with
    | nil => rfl
    | cons x rest ih => simp [hook_ids]
  have h2 : ∀ n : Nat, hook_ids (List.replicate n Call.leave_subsection) = [] := by
    intro n
    induction n with
    | zero => rfl
    | succ m ih => simp [hook_ids, List.replicate_succ]
  have happ : ∀ l1 l2 : List Call, hook_ids (l1 ++ l2) = hook_ids l1 ++ hook_ids l2 := by
    intro l1 l2
    simp [hook_ids]
  have hcons : hook_ids [callback a.acceptor_id, hook a.acceptor_id] = [a.acceptor_id] := by
    have := happ [callback a.acceptor_id] [hook a.acceptor_id]
    simpa [hc, hh] using this
  simp only [visit_calls, happ, h1, h2, hcons, List.nil_append, List.append_nil]

theorem ids_flatMap (f : List Call → List Nat)
    (happ : ∀ l1 l2 : List Call, f (l1 ++ l2) = f l1 ++ f l2) (hnil : f [] = [])
    (visit : ParameterAcceptor → List Call)
    (hvisit : ∀ a, f (visit a) = [a.acceptor_id]) (regs : List ParameterAcceptor) :
    f (regs.flatMap visit) = regs.map acceptor_id := by
  induction regs with
  | nil => simpa using hnil
  | cons a rest ih => simp [happ, hvisit, ih]

/-- C9: when every live registrant has a section path, the visit of each live
registrant, in the declare pass and in the parse pass, issues one
`enter_subsection` per segment of its resolved path, in path order, then the
callback and its hook, then as many `leave_subsection` calls as it issued
enters; the subsection stack after the visit is the stack before it, and so is
the stack after each whole pass. -/
theorem visits_are_bracketed (class_list : ClassList) (prm : ParameterHandler)
    (hall : AllResolve class_list) :
    (∀ a, some a ∈ class_list → ∀ prm0 : ParameterHandler,
      a.get_section_path class_list = Except.ok (path_of class_list a) ∧
      ∃ prm1 prm2,
        declare_visit class_list a prm0 = Except.ok prm1 ∧
        parse_visit class_list a prm0 = Except.ok prm2 ∧
        prm1.calls = prm0.calls ++
          ((path_of class_list a).map Call.enter_subsection ++
            [Call.declare_parameters a.acceptor_id,
              Call.declare_parameters_call_back a.acceptor_id] ++
            List.replicate (path_of class_list a).length Call.leave_subsection) ∧
        prm2.calls = prm0.calls ++
          ((path_of class_list a).map Call.enter_subsection ++
            [Call.parse_parameters a.acceptor_id,
              Call.parse_parameters_call_back a.acceptor_id] ++
            List.replicate (path_of class_list a).length Call.leave_subsection) ∧
        prm1.subsection_path = prm0.subsection_path ∧
        prm2.subsection_path = prm0.subsection_path) ∧
    ∃ prm1 prm2,
      declare_all_parameters class_list prm = Except.ok prm1 ∧
      parse_all_parameters class_list prm = Except.ok prm2 ∧
      prm1.subsection_path = prm.subsection_path ∧
      prm2.subsection_path = prm.subsection_path := by
  constructor
  · intro a ha prm0
    obtain ⟨path, hpath⟩ := hall a ha
    have hp := path_of_eq class_list a path hpath
    obtain ⟨prm1, hd1, hd2, hd3⟩ := declare_visit_ok class_list a prm0 path hpath
    obtain ⟨prm2, hp1, hp2, hp3⟩ := parse_visit_ok class_list a prm0 path hpath
    rw [hp]
    exact ⟨hpath, prm1, prm2, hd1, hp1, hd3, hp3, hd2, hp2⟩
  · obtain ⟨prm1, hd1, hd2, _⟩ :=
      declare_slots_ok class_list hall class_list prm (fun s hs => hs)
    obtain ⟨prm2, hp1, hp2, _⟩ :=
      parse_slots_ok class_list hall class_list prm (fun s hs => hs)
    exact ⟨prm1, prm2, hd1, hp1, hd2, hp2⟩

/-- C9, witness: both passes over `/X/Y/`, a tombstone and `C/D` return, and
leave a handler that started at top level at top level. -/
theorem visits_are_bracketed_witness :
    ∃ prm1 prm2,
      declare_all_parameters with_tombstone fresh = Except.ok prm1 ∧
      parse_all_parameters with_tombstone fresh = Except.ok prm2 ∧
      prm1.subsection_path = fresh.subsection_path ∧
      prm2.subsection_path = fresh.subsection_path :=
  (visits_are_bracketed with_tombstone fresh (all_resolve_of_all _ (by decide))).2

/-- C10: when every live registrant sits in the slot of its id and has a
section path, both passes return; the calls of a pass are the visits of the
live registrants in slot order and nothing else, so a tombstoned slot
contributes no call; the callback and the hook are each invoked once per live
slot, on the ids of the live slots in strictly ascending order. -/
theorem passes_visit_live_slots_in_order (class_list : ClassList) (prm : ParameterHandler)
    (hids : SlotsMatchIds class_list) (hall : AllResolve class_list) :
    (∃ prm1 prm2,
      declare_all_parameters class_list prm = Except.ok prm1 ∧
      parse_all_parameters class_list prm = Except.ok prm2 ∧
      prm1.calls = prm.calls ++
        pass_calls Call.declare_parameters Call.declare_parameters_call_back class_list ∧
      prm2.calls = prm.calls ++
        pass_calls Call.parse_parameters Call.parse_parameters_call_back class_list) ∧
    callback_ids (pass_calls Call.declare_parameters Call.declare_parameters_call_back
      class_list) = live_indices class_list ∧
    hook_ids (pass_calls Call.declare_parameters Call.declare_parameters_call_back
      class_list) = live_indices class_list ∧
    callback_ids (pass_calls Call.parse_parameters Call.parse_parameters_call_back
      class_list) = live_indices class_list ∧
    hook_ids (pass_calls Call.parse_parameters Call.parse_parameters_call_back
      class_list) = live_indices class_list ∧
    (live_indices class_list).Pairwise (fun i k => i < k) ∧
    ∀ i, i ∈ live_indices class_list ↔ ∃ a, class_list[i]? = some (some a) := by
  have hlive : (live class_list).map acceptor_id = live_indices class_list :=
    live_ids_eq_indices_from class_list 0 (fun i a hi => by
      have := hids i a hi
      omega)
  have happ1 : ∀ l1 l2 : List Call, callback_ids (l1 ++ l2) = callback_ids l1 ++ callback_ids l2 := by
    intro l1 l2
    simp [callback_ids]
  have happ2 : ∀ l1 l2 : List Call, hook_ids (l1 ++ l2) = hook_ids l1 ++ hook_ids l2 := by
    intro l1 l2
    simp [hook_ids]
  refine ⟨?_, ?_, ?_, ?_, ?_, pairwise_live_indices_from class_list 0, ?_⟩
  · obtain ⟨prm1, hd1, _, hd3⟩ :=
      declare_slots_ok class_list hall class_list prm (fun s hs => hs)
    obtain ⟨prm2, hp1, _, hp3⟩ :=
      parse_slots_ok class_list hall class_list prm (fun s hs => hs)
    exact ⟨prm1, prm2, hd1, hp1, hd3, hp3⟩
  · rw [← hlive]
    exact ids_flatMap callback_ids happ1 rfl
      (fun a => visit_calls Call.declare_parameters Call.declare_parameters_call_back a (path_of class_list a))
      (fun a => callback_ids_visit_calls Call.declare_parameters Call.declare_parameters_call_back a _ rfl rfl) _
  · rw [← hlive]
    exact ids_flatMap hook_ids happ2 rfl
      (fun a => visit_calls Call.declare_parameters Call.declare_parameters_call_back a (path_of class_list a))
      (fun a => hook_ids_visit_calls Call.declare_parameters Call.declare_parameters_call_back a _ rfl rfl) _
  · rw [← hlive]
    exact ids_flatMap callback_ids happ1 rfl
      (fun a => visit_calls Call.parse_parameters Call.parse_parameters_call_back a (path_of class_list a))
      (fun a => callback_ids_visit_calls Call.parse_parameters Call.parse_parameters_call_back a _ rfl rfl) _
  · rw [← hlive]
    exact ids_flatMap hook_ids happ2 rfl
      (fun a => visit_calls Call.parse_parameters Call.parse_parameters_call_back a (path_of class_list a))
      (fun a => hook_ids_visit_calls Call.parse_parameters Call.parse_parameters_call_back a _ rfl rfl) _
  · intro i
    have := mem_live_indices_from class_list 0 i
    simpa [live_indices] using this

/-- C10, witness: over `/X/Y/`, a tombstone and `C/D`, the declare pass invokes
`declare_parameters` on ids 0 and 2, in this order, and never on slot 1. -/
theorem passes_visit_live_slots_in_order_witness :
    callback_ids (pass_calls Call.declare_parameters Call.declare_parameters_call_back
      with_tombstone) = [0, 2] :=
  (passes_visit_live_slots_in_order with_tombstone fresh
    (slots_match_ids_of_all _ (by decide)) (all_resolve_of_all _ (by decide))).2.1.trans
    (by decide)

end ParameterAcceptor

/-! ## The registry: registration, destruction, reset -/

namespace World

open ParameterAcceptor Examples

/-- The registry has one slot per registrant built, and the `k`-th registrant
built carries the id `k`. -/
theorem step_keeps_ids (w w1 : World) (op : Op) (hop : op ≠ Op.reset)
    (hlen : w.class_list.length = w.objects.length)
    (hid : ∀ (k : Nat) (a : ParameterAcceptor), w.objects[k]? = some a → a.acceptor_id = k)
    (hstep : w.step op = Except.ok w1) :
    w1.class_list.length = w1.objects.length ∧
    (∀ (k : Nat) (a : ParameterAcceptor), w1.objects[k]? = some a → a.acceptor_id = k) ∧
    w1.class_list.length = w.class_list.length + registrations [op] := by
  cases op with
  | register name type_name =>
    simp only [step, Except.ok.injEq] at hstep
    subst hstep
    refine ⟨by simp [construct, hlen], ?_, by simp [construct, registrations]⟩
    intro k a hk
    simp only at hk
    by_cases hlt : k < w.objects.length
    · rw [List.getElem?_append_left hlt] at hk
      exact hid k a hk
    · have hge : w.objects.length ≤ k := Nat.le_of_not_lt hlt
      rw [List.getElem?_append_right hge] at hk
      cases hd : k - w.objects.length with
      | zero =>
        rw [hd] at hk
        simp only [List.getElem?_cons_zero, Option.some.injEq] at hk
        rw [← hk]
        simp only [construct]
        omega
      | succ m =>
        rw [hd] at hk
        simp at hk
  | unregister k =>
    simp only [step] at hstep
    cases hk : w.objects[k]? with
    | none =>
      simp only [hk, Except.ok.injEq] at hstep
      subst hstep
      exact ⟨hlen, hid, by simp [registrations]⟩
    | some a =>
      have hlt : a.acceptor_id < w.class_list.length := by
        have h1 := hid k a hk
        have h2 : k < w.objects.length := by
          by_contra hge
          rw [List.getElem?_eq_none (Nat.le_of_not_lt hge)] at hk
          exact absurd hk (by simp)
        omega
      simp only [hk, destruct, hlt, if_true, Except.ok.injEq] at hstep
      subst hstep
      exact ⟨by simp [hlen], hid, by simp [registrations]⟩
  | reset => exact absurd rfl hop

theorem registrations_cons (op : Op) (rest : List Op) :
    registrations (op :: rest) = registrations [op] + registrations rest := by
  cases op <;> simp [registrations, Nat.add_comm]

theorem step_ok_of_ids (w : World) (op : Op)
    (hlen : w.class_list.length = w.objects.length)
    (hid : ∀ (k : Nat) (a : ParameterAcceptor), w.objects[k]? = some a → a.acceptor_id = k) :
    ∃ w1, w.step op = Except.ok w1 := by
  cases op with
  | register name type_name => exact ⟨_, rfl⟩
  | unregister k =>
    cases hk : w.objects[k]? with
    | none => exact ⟨w, by simp [step, hk]⟩
    | some a =>
      have hlt : a.acceptor_id < w.class_list.length := by
        have h1 := hid k a hk
        have h2 : k < w.objects.length := by
          by_contra hge
          rw [List.getElem?_eq_none (Nat.le_of_not_lt hge)] at hk
          exact absurd hk (by simp)
        omega
      exact ⟨{ class_list := w.class_list.set a.acceptor_id none, objects := w.objects },
        by simp [step, hk, destruct, hlt]⟩
  | reset => exact ⟨_, rfl⟩

theorem run_keeps_ids (ops : List Op) :
    ∀ w : World, Op.reset ∉ ops → w.class_list.length = w.objects.length →
      (∀ (k : Nat) (a : ParameterAcceptor), w.objects[k]? = some a → a.acceptor_id = k) →
      ∃ w1, run ops w = Except.ok w1 ∧
        w1.class_list.length = w1.objects.length ∧
        (∀ (k : Nat) (a : ParameterAcceptor), w1.objects[k]? = some a → a.acceptor_id = k) ∧
        w1.class_list.length = w.class_list.length + registrations ops := by
  induction ops with
  | nil => intro w _ hlen hid; exact ⟨w, rfl, hlen, hid, by simp [registrations]⟩
  | cons op rest ih =>
    intro w hno hlen hid
    have hop : op ≠ Op.reset := fun e => hno (by simp [e])
    have hrest : Op.reset ∉ rest := fun e => hno (by simp [e])
    obtain ⟨w1, hstep⟩ := step_ok_of_ids w op hlen hid
    obtain ⟨h1, h2, h3⟩ := step_keeps_ids w w1 op hop hlen hid hstep
    obtain ⟨w2, hrun, h4, h5, h6⟩ := ih w1 hrest h1 h2
    refine ⟨w2, by simp only [run, hstep, hrun], h4, h5, ?_⟩
    rw [h6, h3, registrations_cons op rest]
    omega

/-- C11: for every sequence of registrations and destructions without a reset,
run from the empty registry, the run succeeds, the registry has as many slots
as registrations were made, and the `k`-th registrant built carries the id `k`
(so no id is ever issued twice); the id the constructor assigns is the registry
length at that moment, and the constructor appends exactly one slot. -/
theorem ids_count_registrations (ops : List Op) (hno : Op.reset ∉ ops) :
    (∃ w, run ops start = Except.ok w ∧
      w.class_list.length = registrations ops ∧
      w.objects.length = registrations ops ∧
      ∀ (k : Nat) (a : ParameterAcceptor), w.objects[k]? = some a → a.acceptor_id = k) ∧
    ∀ (class_list : ClassList) (name type_name : Str),
      (construct class_list name type_name).1.acceptor_id = class_list.length ∧
      (construct class_list name type_name).2 =
        class_list ++ [some (construct class_list name type_name).1] := by
  constructor
  · obtain ⟨w, hrun, h1, h2, h3⟩ := run_keeps_ids ops start hno rfl (fun k a hk => by
      simp [start] at hk)
    have h4 : w.class_list.length = registrations ops := by
      simpa [start] using h3
    exact ⟨w, hrun, h4, by rw [← h1, h4], h2⟩
  · intro class_list name type_name
    exact ⟨rfl, rfl⟩

/-- C11, witness: two registrations, the destruction of the first registrant,
then a third registration: three slots, and the third registrant has id 2. -/
theorem ids_count_registrations_witness :
    ∃ w, run [Op.register "/A".toList "Acc".toList, Op.register "B".toList "Acc".toList,
        Op.unregister 0, Op.register "C".toList "Acc".toList] start = Except.ok w ∧
      w.class_list.length = 3 ∧ w.objects.length = 3 ∧
      ∀ (k : Nat) (a : ParameterAcceptor), w.objects[k]? = some a → a.acceptor_id = k :=
  (ids_count_registrations
    [Op.register "/A".toList "Acc".toList, Op.register "B".toList "Acc".toList,
      Op.unregister 0, Op.register "C".toList "Acc".toList] (by decide)).1

end World

namespace ParameterAcceptor

open Examples

/-- C12: destroying the registrant with a valid id `i` succeeds and only marks
slot `i` as a tombstone: the registry keeps its length and every other slot
holds what it held before, so every other live registrant stays in its slot
with its id. -/
theorem destruct_only_tombstones (class_list : ClassList) (a : ParameterAcceptor)
    (hvalid : a.acceptor_id < class_list.length) :
    ∃ after, a.destruct class_list = Except.ok after ∧
      after.length = class_list.length ∧
      after[a.acceptor_id]? = some none ∧
      (∀ j : Nat, j ≠ a.acceptor_id → after[j]? = class_list[j]?) ∧
      ∀ (j : Nat) (b : ParameterAcceptor), j ≠ a.acceptor_id →
        class_list[j]? = some (some b) → after[j]? = some (some b) := by
  refine ⟨class_list.set a.acceptor_id none, by simp [destruct, hvalid], by simp, ?_, ?_, ?_⟩
  · rw [List.getElem?_set_self hvalid]
  · intro j hj
    rw [List.getElem?_set_ne (fun e => hj e.symm)]
  · intro j b hj hb
    rw [List.getElem?_set_ne (fun e => hj e.symm), hb]

/-- C12, witness: destroying registrant 0 of `/X/Y/`, `C/D` leaves the two
slots in place, slot 0 a tombstone and slot 1 untouched. -/
theorem destruct_only_tombstones_witness :
    ∃ after, (reg 0 "/X/Y/").destruct (two "/X/Y/" "C/D") = Except.ok after ∧
      after.length = (two "/X/Y/" "C/D").length ∧
      after[(reg 0 "/X/Y/").acceptor_id]? = some none ∧
      (∀ j : Nat, j ≠ (reg 0 "/X/Y/").acceptor_id → after[j]? = (two "/X/Y/" "C/D")[j]?) ∧
      ∀ (j : Nat) (b : ParameterAcceptor), j ≠ (reg 0 "/X/Y/").acceptor_id →
        (two "/X/Y/" "C/D")[j]? = some (some b) → after[j]? = some (some b) :=
  destruct_only_tombstones (two "/X/Y/" "C/D") (reg 0 "/X/Y/") (by decide)

end ParameterAcceptor

/-! ## Stale ids and empty segments -/

namespace World

open ParameterAcceptor Examples

theorem step_length (w w1 : World) (op : Op) (hop : op ≠ Op.reset)
    (hstep : w.step op = Except.ok w1) :
    w1.class_list.length = w.class_list.length + registrations [op] := by
  cases op with
  | register name type_name =>
    simp only [step, Except.ok.injEq] at hstep
    subst hstep
    simp [construct, registrations]
  | unregister k =>
    simp only [step] at hstep
    cases hk : w.objects[k]? with
    | none =>
      simp only [hk, Except.ok.injEq] at hstep
      subst hstep
      simp [registrations]
    | some a =>
      simp only [hk, destruct] at hstep
      by_cases hlt : a.acceptor_id < w.class_list.length
      · simp only [hlt, if_true, Except.ok.injEq] at hstep
        subst hstep
        simp [registrations]
      · simp [hlt] at hstep
  | reset => exact absurd rfl hop

theorem run_length (ops : List Op) :
    ∀ w w1 : World, Op.reset ∉ ops → run ops w = Except.ok w1 →
      w1.class_list.length = w.class_list.length + registrations ops := by
  induction ops with
  | nil =>
    intro w w1 _ hrun
    simp only [run, Except.ok.injEq] at hrun
    subst hrun
    simp [registrations]
  | cons op rest ih =>
    intro w w1 hno hrun
    have hop : op ≠ Op.reset := fun e => hno (by simp [e])
    have hrest : Op.reset ∉ rest := fun e => hno (by simp [e])
    simp only [run] at hrun
    cases hstep : w.step op with
    | error e => simp [hstep] at hrun
    | ok w2 =>
      simp only [hstep] at hrun
      rw [ih w2 w1 hrest hrun, step_length w w2 op hop hstep, registrations_cons op rest]
      omega

/-- C13 (as amended): after a reset followed by operations without a further
reset, `get_section_path` of a registrant whose id is not below the number of
registrations made since the reset fails on the internal-error assertion. -/
theorem stale_id_fails_until_reoccupied (w0 w : World) (post : List Op)
    (a : ParameterAcceptor) (hno : Op.reset ∉ post)
    (hrun : run (Op.reset :: post) w0 = Except.ok w)
    (hfew : registrations post ≤ a.acceptor_id) :
    a.get_section_path w.class_list = Except.error Failure.ExcInternalError := by
  simp only [run, step] at hrun
  have hlen := run_length post _ w hno hrun
  have hge : ¬ a.acceptor_id < w.class_list.length := by
    simp only [clear, List.length_nil] at hlen
    omega
  simp [get_section_path, hge]

/-- C13, witness: registrant 1 of two, after a reset and one new registration. -/
theorem stale_id_fails_until_reoccupied_witness :
    (reg 1 "C/D").get_section_path [some (reg 0 "B")] =
      Except.error Failure.ExcInternalError :=
  stale_id_fails_until_reoccupied
    { class_list := two "/X/Y/" "C/D", objects := [reg 0 "/X/Y/", reg 1 "C/D"] }
    { class_list := [some (reg 0 "B")], objects := [reg 0 "/X/Y/", reg 1 "C/D", reg 0 "B"] }
    [Op.register "B".toList "Acc".toList] (reg 1 "C/D") (by decide) (by decide) (by decide)

/-- C13, counterexample: a registrant declared `/A` gets id 0; after a reset a
new registrant declared `B` is registered and gets id 0 as well.  The call of
`get_section_path` by the first registrant does not fail: it returns the path
`B` of the new occupant of slot 0. -/
theorem stale_id_resolves_new_occupant :
    run [Op.register "/A".toList "Acc".toList, Op.reset,
        Op.register "B".toList "Acc".toList] start =
      Except.ok { class_list := [some (reg 0 "B")], objects := [reg 0 "/A", reg 0 "B"] } ∧
    (reg 0 "/A").get_section_path [some (reg 0 "B")] = Except.ok ["B".toList] ∧
    (reg 0 "/A").get_section_path [some (reg 0 "B")] ≠
      Except.error Failure.ExcInternalError := by
  decide

end World

namespace ParameterAcceptor

open Examples

theorem scan_earlier_ok_cases (class_list : ClassList) (sections p : List Str) (i : Nat)
    (h : scan_earlier class_list sections i = Except.ok p) :
    p = sections ∨ ∃ (k : Nat) (q : ParameterAcceptor), k < i ∧
      class_list[k]? = some (some q) ∧ q.get_section_name.head? = some sep ∧
      prepend_absolute q.get_section_name sections = Except.ok p := by
  induction i with
  | zero =>
    simp only [scan_earlier, Except.ok.injEq] at h
    exact Or.inl h.symm
  | succ n ih =>
    simp only [scan_earlier] at h
    cases hslot : class_list[n]? with
    | none => simp [hslot] at h
    | some slot =>
      cases slot with
      | none =>
        simp only [hslot] at h
        rcases ih h with h1 | ⟨k, q, hk, h2⟩
        · exact Or.inl h1
        · exact Or.inr ⟨k, q, Nat.lt_succ_of_lt hk, h2⟩
      | some q =>
        simp only [hslot] at h
        by_cases hq : q.get_section_name.head? = some sep
        · simp only [hq, if_true] at h
          exact Or.inr ⟨n, q, Nat.lt_succ_self n, hslot, hq, h⟩
        · simp only [hq, if_false] at h
          rcases ih h with h1 | ⟨k, q2, hk, h2⟩
          · exact Or.inl h1
          · exact Or.inr ⟨k, q2, Nat.lt_succ_of_lt hk, h2⟩

theorem mem_drop_one_of_take (l : List Str) (n : Nat) (s : Str)
    (h : s ∈ (l.take n).drop 1) : s ∈ l.drop 1 := by
  cases l with
  | nil => simp at h
  | cons x rest =>
    cases n with
    | zero => simp at h
    | succ m =>
      simp only [List.take_succ_cons, List.drop_succ_cons, List.drop_zero] at h ⊢
      exact List.mem_of_mem_take h

theorem prepend_absolute_ok_mem (name : Str) (sections p : List Str)
    (h : prepend_absolute name sections = Except.ok p) :
    ∀ s ∈ p, s ∈ (Utilities.split_string_list name sep).drop 1 ∨ s ∈ sections := by
  unfold prepend_absolute at h
  cases hsecs : Utilities.split_string_list name sep with
  | nil => simp [hsecs] at h
  | cons s0 tl =>
    simp only [hsecs] at h
    split at h
    · cases h
    · split at h <;> split at h <;>
        first
        | (injection h with h
           subst h
           intro s hs
           rcases List.mem_append.mp hs with h1 | h1
           · exact Or.inl (mem_drop_one_of_take _ _ s h1)
           · exact Or.inr h1)
        | cases h

theorem drop_one_of_no_empty_segment (name : Str) (hhead : name.head? = some sep)
    (h : NoEmptySegment name) : [] ∉ (Utilities.split_string_list name sep).drop 1 := by
  cases name with
  | nil => simp at hhead
  | cons c rest =>
    have hc : c = sep := by simpa using hhead
    subst hc
    have hsplit := Utilities.split_string_list_cons_delim sep rest sep_ne_blank
    unfold NoEmptySegment at h
    rw [hsplit] at h ⊢
    cases htl : Utilities.split_loop sep (Utilities.strip_back rest).length
        (Utilities.strip_back rest) with
    | nil => simp
    | cons x l =>
      rw [htl] at h
      simpa [is_absolute] using h

theorem split_relative_path (s : Str) (rest : List Str)
    (h : ∀ t ∈ s :: rest, PlainSegment t) :
    Utilities.split_string_list (s ++ absolute_path rest) sep = s :: rest := by
  have hs := h s (by simp)
  have hrest : ∀ t ∈ rest, PlainSegment t := fun t ht => h t (by simp [ht])
  have hblank : ' ' ∉ s ++ absolute_path rest := by
    simp only [List.mem_append, not_or]
    exact ⟨hs.2.2, blank_not_mem_absolute_path rest hrest⟩
  simp only [Utilities.split_string_list, Utilities.strip_back_of_not_mem _ hblank]
  exact split_loop_segments rest s _ hs hrest (Nat.le_refl _)

/-- Paths built of plain segments joined by single separators, absolute or
relative, split without an empty segment. -/
theorem no_empty_segment_of_plain (s : Str) (rest : List Str)
    (h : ∀ t ∈ s :: rest, PlainSegment t) :
    NoEmptySegment (absolute_path (s :: rest)) ∧ NoEmptySegment (s ++ absolute_path rest) := by
  have hne : ∀ t ∈ s :: rest, t ≠ [] := fun t ht => (h t ht).1
  have hnot : ([] : Str) ∉ s :: rest := fun hm => hne [] hm rfl
  have hs : s ≠ [] := hne s (by simp)
  constructor
  · unfold NoEmptySegment
    rw [split_absolute_path s rest h]
    simpa [is_absolute] using hnot
  · unfold NoEmptySegment
    rw [split_relative_path s rest h]
    have habs : is_absolute (s :: rest) = false := by
      simp [is_absolute, hs]
    simpa [habs] using hnot

/-- C14 (as amended): every segment of the path returned for a live registrant
is non-empty when the split of its own section name, and of the section name of
every earlier live slot that begins with the separator, has no empty segment
apart from the leading one of an absolute path. -/
theorem segments_nonempty (class_list : ClassList) (a : ParameterAcceptor) (p : List Str)
    (hlive : IsLive class_list a) (hres : a.get_section_path class_list = Except.ok p)
    (hown : NoEmptySegment a.get_section_name)
    (hearlier : ∀ (k : Nat) (q : ParameterAcceptor), k < a.acceptor_id →
      class_list[k]? = some (some q) → q.get_section_name.head? = some sep →
      NoEmptySegment q.get_section_name) :
    ∀ s ∈ p, s ≠ [] := by
  rw [get_section_path_of_live class_list a hlive] at hres
  unfold NoEmptySegment at hown
  by_cases habs : is_absolute a.own_sections = true
  · have habs2 : is_absolute (Utilities.split_string_list a.get_section_name sep) = true := habs
    simp only [habs, if_true, Except.ok.injEq] at hres
    simp only [habs2, if_true] at hown
    subst hres
    intro s hs e
    exact hown (e ▸ hs)
  · have habs2 : ¬ is_absolute (Utilities.split_string_list a.get_section_name sep) = true :=
      habs
    simp only [habs, if_false] at hres
    simp only [habs2, if_false] at hown
    intro s hs e
    subst e
    rcases scan_earlier_ok_cases class_list a.own_sections p a.acceptor_id hres with
      h1 | ⟨k, q, hk, hq, hqhead, hpre⟩
    · rw [h1] at hs
      exact hown hs
    · rcases prepend_absolute_ok_mem q.get_section_name a.own_sections p hpre [] hs with
        h2 | h2
      · exact drop_one_of_no_empty_segment q.get_section_name hqhead
          (hearlier k q hk hq hqhead) h2
      · exact hown h2

/-- C14, witness: the path `X, Y, C, D` of `C/D` behind `/X/Y/` has no empty
segment. -/
theorem segments_nonempty_witness :
    ([] : Str) ∉ ["X".toList, "Y".toList, "C".toList, "D".toList] :=
  fun hm => segments_nonempty (two "/X/Y/" "C/D") (reg 1 "C/D")
    ["X".toList, "Y".toList, "C".toList, "D".toList] (by decide) (by decide) (by decide)
    (fun k q hk hq _ => by
      have hk1 : k < 1 := hk
      have h0 : k = 0 := by omega
      subst h0
      have hq2 : q = reg 0 "/X/Y/" := by
        have h1 : (two "/X/Y/" "C/D")[0]? = some (some (reg 0 "/X/Y/")) := by decide
        rw [h1] at hq
        exact (Option.some.inj (Option.some.inj hq)).symm
      subst hq2
      decide) [] hm rfl

/-- C14, counterexample: the declared path `A//B` resolves to `A`, the empty
segment, `B`, and the separator alone resolves to the single empty segment. -/
theorem doubled_separator_gives_empty_segment :
    IsLive [some (reg 0 "A//B")] (reg 0 "A//B") ∧
    (reg 0 "A//B").get_section_path [some (reg 0 "A//B")] =
      Except.ok ["A".toList, [], "B".toList] ∧
    IsLive [some (reg 0 "/")] (reg 0 "/") ∧
    (reg 0 "/").get_section_path [some (reg 0 "/")] = Except.ok [[]] := by
  decide

end ParameterAcceptor

/-! ## The two passes compared, and the stack seen by the callbacks -/

namespace ParameterAcceptor

open Examples

theorem map_as_parse_visit_calls (a : ParameterAcceptor) (path : List Str) :
    (visit_calls Call.declare_parameters Call.declare_parameters_call_back a path).map as_parse =
      visit_calls Call.parse_parameters Call.parse_parameters_call_back a path := by
  have h1 : (path.map Call.enter_subsection).map as_parse = path.map Call.enter_subsection := by
    induction path with
    | nil => rfl
    | cons x rest ih => simp [as_parse]
  have h2 : ∀ n : Nat, (List.replicate n Call.leave_subsection).map as_parse =
      List.replicate n Call.leave_subsection := by
    intro n
    simp [as_parse]
  simp only [visit_calls, List.map_append, h1, h2]
  simp [as_parse]

theorem map_as_parse_pass_calls (class_list : ClassList) :
    (pass_calls Call.declare_parameters Call.declare_parameters_call_back class_list).map
        as_parse =
      pass_calls Call.parse_parameters Call.parse_parameters_call_back class_list := by
  unfold pass_calls
  induction live class_list with
  | nil => rfl
  | cons a rest ih =>
    simp only [List.flatMap_cons, List.map_append, map_as_parse_visit_calls, ih]

theorem store_calls_map_as_parse (calls : List Call) :
    store_calls (calls.map as_parse) = store_calls calls := by
  induction calls with
  | nil => rfl
  | cons c rest ih =>
    unfold store_calls at ih ⊢
    cases c <;> simp [as_parse, List.filter_cons, ih]

theorem callback_ids_map_as_parse (calls : List Call) :
    callback_ids (calls.map as_parse) = callback_ids calls := by
  induction calls with
  | nil => rfl
  | cons c rest ih =>
    unfold callback_ids at ih ⊢
    cases c <;> simp [as_parse, List.filterMap_cons, ih]

theorem hook_ids_map_as_parse (calls : List Call) :
    hook_ids (calls.map as_parse) = hook_ids calls := by
  induction calls with
  | nil => rfl
  | cons c rest ih =>
    unfold hook_ids at ih ⊢
    cases c <;> simp [as_parse, List.filterMap_cons, ih]

/-- C15: over the same registry, when every live registrant has a section
path, both passes return (each from its own starting handler) and the calls of
the parse pass are the calls of the declare pass with `declare_parameters`
replaced by `parse_parameters` and `declare_parameters_call_back` by
`parse_parameters_call_back`, call by call: the calls to the store are the
same sequence, and the same registrants are visited in the same order. -/
theorem passes_differ_only_in_callbacks (class_list : ClassList)
    (before_declare before_parse : ParameterHandler) (hall : AllResolve class_list) :
    ∃ prm1 prm2 declared parsed,
      declare_all_parameters class_list before_declare = Except.ok prm1 ∧
      parse_all_parameters class_list before_parse = Except.ok prm2 ∧
      prm1.calls = before_declare.calls ++ declared ∧
      prm2.calls = before_parse.calls ++ parsed ∧
      parsed = declared.map as_parse ∧
      store_calls parsed = store_calls declared ∧
      callback_ids parsed = callback_ids declared ∧
      hook_ids parsed = hook_ids declared := by
  obtain ⟨prm1, hd1, _, hd3⟩ :=
    declare_slots_ok class_list hall class_list before_declare (fun s hs => hs)
  obtain ⟨prm2, hp1, _, hp3⟩ :=
    parse_slots_ok class_list hall class_list before_parse (fun s hs => hs)
  have hmap := map_as_parse_pass_calls class_list
  refine ⟨prm1, prm2,
    pass_calls Call.declare_parameters Call.declare_parameters_call_back class_list,
    pass_calls Call.parse_parameters Call.parse_parameters_call_back class_list,
    hd1, hp1, hd3, hp3, hmap.symm, ?_, ?_, ?_⟩
  · rw [← hmap, store_calls_map_as_parse]
  · rw [← hmap, callback_ids_map_as_parse]
  · rw [← hmap, hook_ids_map_as_parse]

/-- C15, witness: the two passes over `/X/Y/`, a tombstone and `C/D`. -/
theorem passes_differ_only_in_callbacks_witness :
    ∃ prm1 prm2 declared parsed,
      declare_all_parameters with_tombstone fresh = Except.ok prm1 ∧
      parse_all_parameters with_tombstone fresh = Except.ok prm2 ∧
      prm1.calls = fresh.calls ++ declared ∧
      prm2.calls = fresh.calls ++ parsed ∧
      parsed = declared.map as_parse ∧
      store_calls parsed = store_calls declared ∧
      callback_ids parsed = callback_ids declared ∧
      hook_ids parsed = hook_ids declared :=
  passes_differ_only_in_callbacks with_tombstone fresh fresh (all_resolve_of_all _ (by decide))

theorem foldl_enter_log (sections : List Str) :
    ∀ prm : ParameterHandler,
      (sections.foldl ParameterHandler.enter_subsection prm).log =
        prm.log ++ enter_log prm.subsection_path sections := by
  induction sections with
  | nil => intro prm; simp [enter_log]
  | cons x rest ih =>
    intro prm
    simp only [List.foldl_cons, ih, enter_log]
    simp [ParameterHandler.enter_subsection]

theorem leave_each_log (sections : List Str) :
    ∀ prm prm1 : ParameterHandler, leave_each sections prm = Except.ok prm1 →
      prm1.log = prm.log ++ leave_log prm.subsection_path sections.length := by
  induction sections with
  | nil =>
    intro prm prm1 h
    simp only [leave_each, Except.ok.injEq] at h
    subst h
    simp [leave_log]
  | cons x rest ih =>
    intro prm prm1 h
    simp only [leave_each, ParameterHandler.leave_subsection] at h
    by_cases hne : prm.subsection_path = []
    · simp [hne] at h
    · simp only [hne, if_false] at h
      rw [ih _ prm1 h]
      simp [leave_log]

theorem bracket_log (class_list : ClassList) (a : ParameterAcceptor) (prm prm1 : ParameterHandler)
    (path : List Str) (c1 c2 : Call) (hpath : a.get_section_path class_list = Except.ok path)
    (h : (match a.enter_my_subsection class_list prm with
        | Except.error e => Except.error e
        | Except.ok p1 => a.leave_my_subsection class_list ((p1.record c1).record c2)) =
        Except.ok prm1) :
    prm1.log = prm.log ++ enter_log prm.subsection_path path ++
      [(c1, prm.subsection_path ++ path), (c2, prm.subsection_path ++ path)] ++
      leave_log (prm.subsection_path ++ path) path.length := by
  simp only [enter_my_subsection, leave_my_subsection, hpath] at h
  rw [leave_each_log path _ prm1 h]
  simp [ParameterHandler.record, foldl_enter_log, (foldl_enter path prm).1]

theorem map_fst_enter_log (path : List Str) :
    ∀ stack : List Str, (enter_log stack path).map Prod.fst = path.map Call.enter_subsection := by
  induction path with
  | nil => intro stack; rfl
  | cons x rest ih => intro stack; simp [enter_log, ih]

theorem map_fst_leave_log (n : Nat) :
    ∀ stack : List Str,
      (leave_log stack n).map Prod.fst = List.replicate n Call.leave_subsection := by
  induction n with
  | zero => intro stack; rfl
  | succ m ih => intro stack; simp [leave_log, ih, List.replicate_succ]

/-- C16: within the visit of a registrant whose path resolves, in either pass,
the log grows by the enters of its path, then the callback, then at once the
hook, then the leaves; the callback and the hook are both received while the
subsection stack is the stack before the visit extended by the whole resolved
path. -/
theorem callbacks_run_inside_section (class_list : ClassList) (a : ParameterAcceptor)
    (prm : ParameterHandler) (path : List Str)
    (hpath : a.get_section_path class_list = Except.ok path) :
    ∃ prm1 prm2,
      declare_visit class_list a prm = Except.ok prm1 ∧
      parse_visit class_list a prm = Except.ok prm2 ∧
      prm1.log = prm.log ++ enter_log prm.subsection_path path ++
        [(Call.declare_parameters a.acceptor_id, prm.subsection_path ++ path),
         (Call.declare_parameters_call_back a.acceptor_id, prm.subsection_path ++ path)] ++
        leave_log (prm.subsection_path ++ path) path.length ∧
      prm2.log = prm.log ++ enter_log prm.subsection_path path ++
        [(Call.parse_parameters a.acceptor_id, prm.subsection_path ++ path),
         (Call.parse_parameters_call_back a.acceptor_id, prm.subsection_path ++ path)] ++
        leave_log (prm.subsection_path ++ path) path.length ∧
      (enter_log prm.subsection_path path).map Prod.fst = path.map Call.enter_subsection ∧
      (leave_log (prm.subsection_path ++ path) path.length).map Prod.fst =
        List.replicate path.length Call.leave_subsection := by
  obtain ⟨prm1, hd1, _, _⟩ := declare_visit_ok class_list a prm path hpath
  obtain ⟨prm2, hp1, _, _⟩ := parse_visit_ok class_list a prm path hpath
  exact ⟨prm1, prm2, hd1, hp1,
    bracket_log class_list a prm prm1 path _ _ hpath hd1,
    bracket_log class_list a prm prm2 path _ _ hpath hp1,
    map_fst_enter_log path _, map_fst_leave_log path.length _⟩

/-- C16, witness: the visits of `C/D` behind `/X/Y/`, from top level. -/
theorem callbacks_run_inside_section_witness :
    ∃ prm1 prm2,
      declare_visit (two "/X/Y/" "C/D") (reg 1 "C/D") fresh = Except.ok prm1 ∧
      parse_visit (two "/X/Y/" "C/D") (reg 1 "C/D") fresh = Except.ok prm2 ∧
      prm1.log = fresh.log ++
        enter_log fresh.subsection_path ["X".toList, "Y".toList, "C".toList, "D".toList] ++
        [(Call.declare_parameters (reg 1 "C/D").acceptor_id,
            fresh.subsection_path ++ ["X".toList, "Y".toList, "C".toList, "D".toList]),
         (Call.declare_parameters_call_back (reg 1 "C/D").acceptor_id,
            fresh.subsection_path ++ ["X".toList, "Y".toList, "C".toList, "D".toList])] ++
        leave_log (fresh.subsection_path ++ ["X".toList, "Y".toList, "C".toList, "D".toList])
          ["X".toList, "Y".toList, "C".toList, "D".toList].length ∧
      prm2.log = fresh.log ++
        enter_log fresh.subsection_path ["X".toList, "Y".toList, "C".toList, "D".toList] ++
        [(Call.parse_parameters (reg 1 "C/D").acceptor_id,
            fresh.subsection_path ++ ["X".toList, "Y".toList, "C".toList, "D".toList]),
         (Call.parse_parameters_call_back (reg 1 "C/D").acceptor_id,
            fresh.subsection_path ++ ["X".toList, "Y".toList, "C".toList, "D".toList])] ++
        leave_log (fresh.subsection_path ++ ["X".toList, "Y".toList, "C".toList, "D".toList])
          ["X".toList, "Y".toList, "C".toList, "D".toList].length ∧
      (enter_log fresh.subsection_path
          ["X".toList, "Y".toList, "C".toList, "D".toList]).map Prod.fst =
        ["X".toList, "Y".toList, "C".toList, "D".toList].map Call.enter_subsection ∧
      (leave_log (fresh.subsection_path ++ ["X".toList, "Y".toList, "C".toList, "D".toList])
          ["X".toList, "Y".toList, "C".toList, "D".toList].length).map Prod.fst =
        List.replicate ["X".toList, "Y".toList, "C".toList, "D".toList].length
          Call.leave_subsection :=
  callbacks_run_inside_section (two "/X/Y/" "C/D") (reg 1 "C/D") fresh
    ["X".toList, "Y".toList, "C".toList, "D".toList] (by decide)

/-- The log of the declare visit of `C/D` behind `/X/Y/`, written out: the
callback and the hook are received on the stack `X, Y, C, D`. -/
theorem declare_visit_log_example :
    declare_visit (two "/X/Y/" "C/D") (reg 1 "C/D") fresh =
      Except.ok
        { subsection_path := [],
          log :=
            [(Call.enter_subsection "X".toList, []),
             (Call.enter_subsection "Y".toList, ["X".toList]),
             (Call.enter_subsection "C".toList, ["X".toList, "Y".toList]),
             (Call.enter_subsection "D".toList, ["X".toList, "Y".toList, "C".toList]),
             (Call.declare_parameters 1, ["X".toList, "Y".toList, "C".toList, "D".toList]),
             (Call.declare_parameters_call_back 1,
               ["X".toList, "Y".toList, "C".toList, "D".toList]),
             (Call.leave_subsection, ["X".toList, "Y".toList, "C".toList, "D".toList]),
             (Call.leave_subsection, ["X".toList, "Y".toList, "C".toList]),
             (Call.leave_subsection, ["X".toList, "Y".toList]),
             (Call.leave_subsection, ["X".toList])] } := by
  decide

end ParameterAcceptor

/-! ## What a resolved path depends on, and when resolution fails -/

namespace ParameterAcceptor

open Examples

theorem same_slot_cases (first second : ClassList) (k : Nat) (h : SameSlot first second k) :
    (first[k]? = none ∧ second[k]? = none) ∨
    (first[k]? = some none ∧ second[k]? = some none) ∨
    ∃ q1 q2 : ParameterAcceptor, first[k]? = some (some q1) ∧ second[k]? = some (some q2) ∧
      q1.get_section_name = q2.get_section_name := by
  unfold SameSlot at h
  cases h1 : first[k]? with
  | none =>
    cases h2 : second[k]? with
    | none => exact Or.inl ⟨rfl, rfl⟩
    | some y => simp [h1, h2] at h
  | some x =>
    cases h2 : second[k]? with
    | none => simp [h1, h2] at h
    | some y =>
      cases x with
      | none =>
        cases y with
        | none => exact Or.inr (Or.inl ⟨rfl, rfl⟩)
        | some q2 => simp [h1, h2] at h
      | some q1 =>
        cases y with
        | none => simp [h1, h2] at h
        | some q2 =>
          refine Or.inr (Or.inr ⟨q1, q2, rfl, rfl, ?_⟩)
          simpa [h1, h2] using h

theorem scan_earlier_congr (first second : ClassList) (sections : List Str) (i : Nat)
    (h : ∀ k : Nat, k < i → SameSlot first second k) :
    scan_earlier first sections i = scan_earlier second sections i := by
  induction i with
  | zero => rfl
  | succ n ih =>
    have ih2 := ih (fun k hk => h k (Nat.lt_succ_of_lt hk))
    rcases same_slot_cases first second n (h n (Nat.lt_succ_self n)) with
      ⟨h1, h2⟩ | ⟨h1, h2⟩ | ⟨q1, q2, h1, h2, hname⟩
    · simp only [scan_earlier, h1, h2]
    · simp only [scan_earlier, h1, h2, ih2]
    · simp only [scan_earlier, h1, h2, hname, ih2]

theorem get_section_path_congr (first second : ClassList) (a : ParameterAcceptor)
    (h : ∀ k : Nat, k ≤ a.acceptor_id → SameSlot first second k) :
    a.get_section_path first = a.get_section_path second := by
  have hscan : ∀ sections : List Str,
      scan_earlier first sections a.acceptor_id = scan_earlier second sections a.acceptor_id :=
    fun sections => scan_earlier_congr first second sections a.acceptor_id
      (fun k hk => h k (Nat.le_of_lt hk))
  rcases same_slot_cases first second a.acceptor_id (h a.acceptor_id (Nat.le_refl _)) with
    ⟨h1, h2⟩ | ⟨h1, h2⟩ | ⟨q1, q2, h1, h2, hname⟩
  · have hl1 : ¬ a.acceptor_id < first.length := by
      intro hlt
      rw [List.getElem?_eq_getElem hlt] at h1
      exact absurd h1 (by simp)
    have hl2 : ¬ a.acceptor_id < second.length := by
      intro hlt
      rw [List.getElem?_eq_getElem hlt] at h2
      exact absurd h2 (by simp)
    simp only [get_section_path, hl1, hl2, if_false]
  · have hl1 : a.acceptor_id < first.length := by
      by_contra hge
      rw [List.getElem?_eq_none (Nat.le_of_not_lt hge)] at h1
      exact absurd h1 (by simp)
    have hl2 : a.acceptor_id < second.length := by
      by_contra hge
      rw [List.getElem?_eq_none (Nat.le_of_not_lt hge)] at h2
      exact absurd h2 (by simp)
    simp only [get_section_path, hl1, hl2, if_true, h1, h2]
  · have hl1 : a.acceptor_id < first.length := by
      by_contra hge
      rw [List.getElem?_eq_none (Nat.le_of_not_lt hge)] at h1
      exact absurd h1 (by simp)
    have hl2 : a.acceptor_id < second.length := by
      by_contra hge
      rw [List.getElem?_eq_none (Nat.le_of_not_lt hge)] at h2
      exact absurd h2 (by simp)
    simp only [get_section_path, hl1, hl2, if_true, h1, h2, hname, hscan]

theorem same_slot_refl (class_list : ClassList) (k : Nat) : SameSlot class_list class_list k :=
  rfl

/-- C17: two registries that agree on the slots `0..id` (slot by slot both out
of range, both tombstones, or both live with the same section name, which is
the declared path or, for an empty declared path, the type name) give the same
result of `get_section_path` for `id`.  In particular the result for an
existing registrant is not changed by a further registration, nor by the
destruction of a registrant with a greater id. -/
theorem resolved_path_depends_on_earlier_slots (first second : ClassList)
    (a : ParameterAcceptor) (hagree : ∀ k : Nat, k ≤ a.acceptor_id → SameSlot first second k) :
    a.get_section_path first = a.get_section_path second ∧
    (∀ name type_name : Str, a.acceptor_id < first.length →
      a.get_section_path (construct first name type_name).2 = a.get_section_path first) ∧
    ∀ (other : ParameterAcceptor) (after : ClassList), a.acceptor_id < other.acceptor_id →
      other.destruct first = Except.ok after →
      a.get_section_path after = a.get_section_path first := by
  refine ⟨get_section_path_congr first second a hagree, ?_, ?_⟩
  · intro name type_name hlt
    refine get_section_path_congr _ _ a ?_
    intro k hk
    have hk2 : k < first.length := Nat.lt_of_le_of_lt hk hlt
    simp only [SameSlot, construct, List.getElem?_append_left hk2]
  · intro other after hgt hd
    unfold destruct at hd
    by_cases hlt : other.acceptor_id < first.length
    · simp only [hlt, if_true, Except.ok.injEq] at hd
      subst hd
      refine get_section_path_congr _ _ a ?_
      intro k hk
      have hne : other.acceptor_id ≠ k := by omega
      simp only [SameSlot, List.getElem?_set_ne hne]
    · simp [hlt] at hd

/-- C17, witness: the path of registrant 1 (`C/D` behind `/X/Y/`) is the same
with a third slot present, live or destroyed. -/
theorem resolved_path_depends_on_earlier_slots_witness :
    (reg 1 "C/D").get_section_path [some (reg 0 "/X/Y/"), some (reg 1 "C/D"), some (reg 2 "/Z")] =
      (reg 1 "C/D").get_section_path [some (reg 0 "/X/Y/"), some (reg 1 "C/D"), none] :=
  (resolved_path_depends_on_earlier_slots
    [some (reg 0 "/X/Y/"), some (reg 1 "C/D"), some (reg 2 "/Z")]
    [some (reg 0 "/X/Y/"), some (reg 1 "C/D"), none] (reg 1 "C/D") (by decide)).1

/-- C17, counterexample to agreement on liveness and declared paths alone: two
registries whose slot 0 is live with the empty declared path, holding
registrants of different types, give different paths for id 0. -/
theorem type_name_takes_part :
    ([some (reg 0 "")] : ClassList).map (Option.map ParameterAcceptor.section_name) =
      ([some { acceptor_id := 0, section_name := [], type_name := "Other".toList }] :
        ClassList).map (Option.map ParameterAcceptor.section_name) ∧
    (reg 0 "").get_section_path [some (reg 0 "")] = Except.ok ["Acc".toList] ∧
    (reg 0 "").get_section_path
        [some { acceptor_id := 0, section_name := [], type_name := "Other".toList }] =
      Except.ok ["Other".toList] ∧
    (reg 0 "").get_section_path [some (reg 0 "")] ≠
      (reg 0 "").get_section_path
        [some { acceptor_id := 0, section_name := [], type_name := "Other".toList }] := by
  decide

theorem strip_back_blanks (tail : Str) (h : ∀ c ∈ tail, c = ' ') :
    Utilities.strip_back tail = [] := by
  unfold Utilities.strip_back
  rw [List.reverse_eq_nil_iff, List.dropWhile_eq_nil_iff]
  intro c hc
  have := h c (by simpa using hc)
  simp [this]

theorem getLast_blanks (tail : Str) (hne : tail ≠ []) (h : ∀ c ∈ tail, c = ' ') :
    (sep :: tail).getLast? = some ' ' := by
  have h1 : (sep :: tail).getLast? = tail.getLast? := by
    cases tail with
    | nil => exact absurd rfl hne
    | cons x rest => simp [List.getLast?_cons_cons]
  rw [h1, List.getLast?_eq_getLast _ hne]
  exact congrArg some (h _ (List.getLast_mem hne))

theorem prepend_absolute_blank (name : Str) (sections : List Str)
    (h : BlankAfterSeparator name) :
    Utilities.split_string_list name sep = [[]] ∧
    prepend_absolute name sections = Except.error Failure.invalid_range := by
  obtain ⟨tail, hname, hne, hblank⟩ := h
  subst hname
  have hsplit : Utilities.split_string_list (sep :: tail) sep = [[]] := by
    rw [Utilities.split_string_list_cons_delim sep tail sep_ne_blank,
      strip_back_blanks tail hblank]
    rfl
  refine ⟨hsplit, ?_⟩
  have hlast : ¬ (sep :: tail).getLast? = some sep := by
    rw [getLast_blanks tail hne hblank]
    decide
  simp [prepend_absolute, hsplit, hlast]

theorem prepend_absolute_ok (name : Str) (sections : List Str)
    (hhead : name.head? = some sep) (h : ¬ BlankAfterSeparator name) :
    ∃ p, prepend_absolute name sections = Except.ok p := by
  by_cases hlast : name.getLast? = some sep
  · exact ⟨_, prepend_absolute_trailing name sections hhead hlast⟩
  · cases name with
    | nil => simp at hhead
    | cons c tail =>
      have hc : c = sep := by simpa using hhead
      subst hc
      have htail : tail ≠ [] := by
        intro e
        subst e
        exact hlast rfl
      have hmore : ∃ c ∈ tail, c ≠ ' ' := by
        by_contra hno
        exact h ⟨tail, rfl, htail, fun c hc => by
          by_contra hne
          exact hno ⟨c, hc, hne⟩⟩
      have hlen := Utilities.length_split_string_list_gt sep tail sep_ne_blank hmore
      exact ⟨_, prepend_absolute_no_trailing (sep :: tail) sections hhead hlast hlen⟩

theorem scan_earlier_resolves (class_list : ClassList) (sections : List Str) (i : Nat)
    (hi : i ≤ class_list.length)
    (h : ∀ (k : Nat) (q : ParameterAcceptor), k < i → class_list[k]? = some (some q) →
      ¬ BlankAfterSeparator q.get_section_name) :
    ∃ p, scan_earlier class_list sections i = Except.ok p := by
  induction i with
  | zero => exact ⟨sections, rfl⟩
  | succ n ih =>
    have hn : n < class_list.length := hi
    obtain ⟨p, hp⟩ := ih (Nat.le_of_lt hn) (fun k q hk => h k q (Nat.lt_succ_of_lt hk))
    have hget : class_list[n]? = some class_list[n] := List.getElem?_eq_getElem hn
    cases hslot : class_list[n] with
    | none =>
      rw [hslot] at hget
      exact ⟨p, by simp only [scan_earlier, hget, hp]⟩
    | some q =>
      rw [hslot] at hget
      by_cases hq : q.get_section_name.head? = some sep
      · obtain ⟨p2, hp2⟩ := prepend_absolute_ok q.get_section_name sections hq
          (h n q (Nat.lt_succ_self n) hget)
        exact ⟨p2, by simp only [scan_earlier, hget, hq, if_true, hp2]⟩
      · exact ⟨p, by simp only [scan_earlier, hget, hq, if_false, hp]⟩

/-- The part of C18 that holds: the path of a live registrant resolves whenever
no earlier live slot has a section name made of the separator followed only by
blanks. -/
theorem get_section_path_resolves (class_list : ClassList) (a : ParameterAcceptor)
    (hlive : IsLive class_list a)
    (h : ∀ (k : Nat) (q : ParameterAcceptor), k < a.acceptor_id →
      class_list[k]? = some (some q) → ¬ BlankAfterSeparator q.get_section_name) :
    ∃ p, a.get_section_path class_list = Except.ok p := by
  rw [get_section_path_of_live class_list a hlive]
  by_cases habs : is_absolute a.own_sections = true
  · exact ⟨a.own_sections.drop 1, by simp only [habs, if_true]⟩
  · obtain ⟨p, hp⟩ := scan_earlier_resolves class_list a.own_sections a.acceptor_id
      (Nat.le_of_lt (lt_length_of_live hlive)) h
    exact ⟨p, by simp [habs, hp]⟩

/-- The parts of C18 about the split that hold: the split of a name that begins
with the separator starts with the empty segment, so it has at least one
segment and the assertion `secs[0] == ""` holds; it has at least two segments
as soon as something other than blanks follows the separator. -/
theorem split_of_absolute_name (tail : Str) :
    (∃ more, Utilities.split_string_list (sep :: tail) sep = [] :: more) ∧
    ((∃ c ∈ tail, c ≠ ' ') → 2 ≤ (Utilities.split_string_list (sep :: tail) sep).length) :=
  ⟨⟨_, Utilities.split_string_list_cons_delim sep tail sep_ne_blank⟩,
    fun h => Utilities.length_split_string_list_gt sep tail sep_ne_blank h⟩

/-- C18, the failing input: the separator followed only by blanks, in an earlier
live slot.  The name begins with the separator and does not end with it, yet
its split has one segment, not two, for any number of blanks; the range handed
to `insert` ends before it starts, and `get_section_path` of the live
registrant 1 behind such a slot does not run to completion. -/
theorem separator_then_blanks_has_one_segment :
    (∀ (n : Nat) (sections : List Str),
      (sep :: List.replicate (n + 1) ' ').head? = some sep ∧
      (sep :: List.replicate (n + 1) ' ').getLast? ≠ some sep ∧
      Utilities.split_string_list (sep :: List.replicate (n + 1) ' ') sep = [[]] ∧
      prepend_absolute (sep :: List.replicate (n + 1) ' ') sections =
        Except.error Failure.invalid_range) ∧
    IsLive (two "/  " "A") (reg 1 "A") ∧
    (reg 1 "A").get_section_path (two "/  " "A") = Except.error Failure.invalid_range := by
  refine ⟨?_, by decide, by decide⟩
  intro n sections
  have hb : BlankAfterSeparator (sep :: List.replicate (n + 1) ' ') :=
    ⟨List.replicate (n + 1) ' ', rfl, by simp, fun c hc => (List.mem_replicate.mp hc).2⟩
  have hlast : (sep :: List.replicate (n + 1) ' ').getLast? = some ' ' :=
    getLast_blanks _ (by simp) (fun c hc => (List.mem_replicate.mp hc).2)
  obtain ⟨h1, h2⟩ := prepend_absolute_blank _ sections hb
  refine ⟨rfl, ?_, h1, h2⟩
  rw [hlast]
  decide

end ParameterAcceptor
